import Mathlib

/-!
# Fleet coordination protocol — verification of the leader/scheduler logic

Shallow embedding of the fleet-coordination code in
`fleet_turtlebot4_navigation/simulated_slave_navigation_node.py` (the
simulator node, which carries the full leader logic: election, occupancy
scheduling, waypoint assignment and re-partitioning) and of the
attribute-initialization discipline of
`fleet_turtlebot4_navigation/slave_navigation_node.py`.

Conventions of the embedding:
* Python `time.time()` timestamps are `Int` (the claims only compare
  elapsed times against the 5-second timeout).
* Waypoint coordinates are `Int`; no claim performs arithmetic on them,
  they are only carried through messages.
* The Python `dict` `active_slaves` is an association list in insertion
  order with namespaces as keys (Python dicts preserve insertion order).
* The Python `set` `occupied_nodes` is the `label` projection of
  `occupied : List OccEntry`; the extra `holder` component is ghost
  bookkeeping recording which agent's assignment inserted the label. All
  membership tests and removals below use labels only, exactly as the
  source operates on the bare label set.
* The external `partition_graph` and `calculate_dcpp_route` functions live
  in `graph_partitioning.py` / `path_calculation.py`, which are not part of
  the sources under verification; every definition and theorem is
  parameterized over them (`P` and `D`), so the results hold for every
  possible behaviour of those collaborators.
-/

namespace Fleet

/-- A waypoint as produced by `extract_waypoints`: a labeled node with
coordinates and an orientation (radians in the source; represented as an
integer since no claim computes with it). -/
structure Waypoint where
  label : String
  x : Int
  y : Int
  orientation : Int
deriving DecidableEq, Repr, Inhabited

/-- A 2-D start position (`{'x': ..., 'y': ...}` dictionaries in the
source). -/
structure Pos where
  x : Int
  y : Int
deriving DecidableEq, Repr, Inhabited

/-- A navigation graph as decoded by `load_full_graph_from_data`: labeled
nodes with data, and weighted directed edges. Only its node list is read
by the code under verification (`extract_waypoints`); edges are consumed
by the external partitioner and route solver. -/
structure NavGraph where
  nodes : List Waypoint
  edges : List (String × String × Int)
deriving DecidableEq, Repr, Inhabited

/-- Ghost-tagged entry of the Python set `occupied_nodes`: the `label` is
what the set stores; `holder` records on whose behalf the assignment
inserted it (used only to state the ownership invariant, never read by
the embedded operations). -/
structure OccEntry where
  holder : String
  label : String
deriving DecidableEq, Repr, Inhabited

/-- Per-agent record mirroring the `SlaveState` class of the simulator
(`slave_ns`, `assigned_waypoints`, `current_waypoint_index`,
`last_seen_time`, `initial_x`/`initial_y`, `waiting`; the ROS publisher
handle is omitted — sent messages are logged in the node state instead). -/
structure AgentRec where
  ns : String
  route : List Waypoint
  cursor : Nat
  lastSeen : Int
  pos : Option Pos
  waiting : Bool
deriving DecidableEq, Repr, Inhabited

/-- State of one `SlaveNavigationSimulator` process. `selfRec` collects the
node's own `assigned_waypoints` / `current_waypoint_index` / `waiting` /
initial-position fields (the code accesses them uniformly through the
`slave = self` aliasing); `sent` is the log of navigation-command messages
`(agent namespace, target label)` published so far. -/
structure LeaderState where
  selfNs : String
  selfRec : AgentRec
  slaves : List AgentRec
  occupied : List OccEntry
  graph : Option NavGraph
  masterAlive : Bool
  lastMasterHeartbeat : Int
  heartbeatTimeout : Int
  isMaster : Bool
  partitioningDone : Bool
  sent : List (String × String)
deriving DecidableEq, Repr, Inhabited

/-- Namespaces of the currently known peer slaves, in insertion order
(`self.active_slaves.keys()`). -/
def slaveNames (st : LeaderState) : List String :=
  st.slaves.map (·.ns)

/-- The labels currently in the Python set `occupied_nodes`. -/
def occLabels (st : LeaderState) : List String :=
  st.occupied.map (·.label)

/-- `self.active_slaves.get(ns, None)`. -/
def findSlave (st : LeaderState) (ns : String) : Option AgentRec :=
  st.slaves.find? (·.ns = ns)

/-- Replace the record stored for `ns`: the `useSelf` flag says whether the
Python code aliased `slave = self` (master's own fields) or a dictionary
entry. -/
def setRec (st : LeaderState) (useSelf : Bool) (ns : String) (a : AgentRec) :
    LeaderState :=
  if useSelf then { st with selfRec := a }
  else { st with slaves := st.slaves.map fun b => if b.ns = ns then a else b }

/-- Cursor advance of `assign_next_waypoint` (source lines 460-462):
increment, and reset to `0` once the end of the route is passed. -/
def advanceCursor (c len : Nat) : Nat :=
  if c + 1 ≥ len then 0 else c + 1

/-- The route entry an agent record currently points at:
`assigned_waypoints[current_waypoint_index % len(assigned_waypoints)]`. -/
def targetWp (a : AgentRec) : Waypoint :=
  a.route.getD (a.cursor % a.route.length) default

/-- Label of the current target. -/
def targetLabel (a : AgentRec) : String :=
  (targetWp a).label

/-- Agent resolution of `assign_next_waypoint` (lines 420-423): the
master's own record if the namespace is its own, otherwise the
`active_slaves` entry. -/
def anwResolve (st : LeaderState) (ns : String) : Option (Bool × AgentRec) :=
  if ns = st.selfNs then some (true, st.selfRec)
  else (findSlave st ns).map (false, ·)

/-- `SlaveNavigationSimulator.assign_next_waypoint` (lines 418-462), as a
pure transition. Unknown agent or empty route: no change. Target occupied:
the agent is marked waiting, nothing else changes. Target free: the
navigation command is sent (logged in `sent`), the label is reserved in
`occupied_nodes` on the agent's behalf, and the cursor advances with
wrap-around. -/
def assignNextWaypoint (st : LeaderState) (ns : String) : LeaderState :=
  match anwResolve st ns with
  | none => st
  | some (sf, a) =>
    if a.route.length = 0 then st
    else
      let wp := targetWp a
      if wp.label ∈ occLabels st then
        setRec st sf ns { a with waiting := true }
      else
        let st1 := { st with
          sent := st.sent ++ [(ns, wp.label)],
          occupied := st.occupied ++ [⟨ns, wp.label⟩] }
        setRec st1 sf ns { a with cursor := advanceCursor a.cursor a.route.length }

/-- The string order Python's `sorted` uses: lexicographic comparison of
the code-point sequences. It is equivalent to `String`'s `≤`
(`String.le_iff_toList_le`), but stated on the character lists so that
concrete comparisons evaluate inside the kernel. -/
def strle (a b : String) : Prop :=
  a.toList ≤ b.toList

instance : DecidableRel strle := fun a b =>
  inferInstanceAs (Decidable (a.toList ≤ b.toList))

instance : IsTotal String strle :=
  ⟨fun a b => le_total a.toList b.toList⟩

instance : IsTrans String strle :=
  ⟨fun _ _ _ => le_trans⟩

/-- Python's `sorted` on strings: lexicographic (code-point) order, which
is exactly `String`'s linear order. Python's sort is a comparison sort
over this total order; since any two sorts of a list under a linear order
produce the same output up to the order of *equal* elements — and equal
strings are indistinguishable — insertion sort is an exact model. -/
def pySorted (l : List String) : List String :=
  l.insertionSort strle

/-- The candidate list `list(self.active_slaves.keys()) + [self.robot_namespace]`
(used both by `elect_new_master`, line 153, and — after sorting — by
`assign_waiting_slaves`, line 466, and `partition_and_assign_waypoints`,
line 378). -/
def electCandidates (st : LeaderState) : List String :=
  slaveNames st ++ [st.selfNs]

/-- `sorted(candidates)` — the fixed processing order of
`assign_waiting_slaves` and the agent order of the partition pass. -/
def sortedCandidates (st : LeaderState) : List String :=
  pySorted (electCandidates st)

/-- The election winner `sorted(candidates)[0]` of `elect_new_master`
(lines 151-166): the head of the lexicographically sorted candidate
list. `none` only if the candidate list were empty, which cannot happen
since the node's own namespace is always included. -/
def electWinner (st : LeaderState) : Option String :=
  (pySorted (electCandidates st)).head?

/-- Agent resolution of `assign_waiting_slaves` (lines 468-473): the
master's own record only when acting as master, otherwise the
`active_slaves` entry (skipped when absent). -/
def awsResolve (st : LeaderState) (ns : String) : Option (Bool × AgentRec) :=
  if ns = st.selfNs ∧ st.isMaster then some (true, st.selfRec)
  else (findSlave st ns).map (false, ·)

/-- One iteration of the `assign_waiting_slaves` loop body (lines 467-508)
for the namespace `ns`: if the resolved agent is waiting and its current
target is free, the command is sent, the label reserved, the waiting flag
cleared and the cursor advanced; otherwise nothing changes. -/
def awsStep (st : LeaderState) (ns : String) : LeaderState :=
  match awsResolve st ns with
  | none => st
  | some (sf, a) =>
    if a.waiting then
      if a.route.length = 0 then st
      else
        let wp := targetWp a
        if wp.label ∈ occLabels st then st
        else
          let st1 := { st with
            sent := st.sent ++ [(ns, wp.label)],
            occupied := st.occupied ++ [⟨ns, wp.label⟩] }
          setRec st1 sf ns
            { a with waiting := false,
                     cursor := advanceCursor a.cursor a.route.length }
    else st

/-- `SlaveNavigationSimulator.assign_waiting_slaves` (lines 464-509): scan
every candidate namespace in ascending sorted order and re-attempt the
assignment of each waiting agent. -/
def assignWaitingSlaves (st : LeaderState) : LeaderState :=
  (sortedCandidates st).foldl awsStep st

/-! ## JSON-level modelling of the navigation-status channel

`navigation_status_callback` decodes `msg.data` with `json.loads` and
reads five fields, four with `data[...]` (`KeyError` on absence) and one
with `data.get(...)` (defaulted). A payload is either `malformed` (the
`json.JSONDecodeError` case) or a decoded JSON object, a key/value list.
Values are strings or numbers — the two shapes the protocol uses. -/

/-- A JSON value on the status channel: a string or a number. -/
inductive JVal where
  | str (s : String)
  | num (n : Int)
deriving DecidableEq, Repr, Inhabited

/-- A decoded JSON object: key/value pairs (keys unique in any payload
`json.loads` can produce). -/
abbrev JObj := List (String × JVal)

/-- A raw message on the status channel. -/
inductive Payload where
  | malformed
  | obj (o : JObj)
deriving DecidableEq, Repr, Inhabited

/-- `data[k]` lookup. -/
def jget (o : JObj) (k : String) : Option JVal :=
  (o.find? (·.1 = k)).map (·.2)

/-- The five fields read by `navigation_status_callback` (lines 291-297). -/
structure StatusMsg where
  robot_namespace : JVal
  status : JVal
  current_waypoint : JVal
  time_taken : JVal
  error_message : JVal
deriving DecidableEq, Repr, Inhabited

/-- The `try` block of `navigation_status_callback` (lines 290-300):
`none` exactly when the payload is malformed JSON or one of the four
required fields is missing (`json.JSONDecodeError` / `KeyError`, both
caught with a log-and-return); `error_message` is read with
`data.get('error_message', '')` and so never fails. -/
def decodeStatus : Payload → Option StatusMsg
  | .malformed => none
  | .obj o => do
    let rn ← jget o "robot_namespace"
    let s ← jget o "status"
    let cw ← jget o "current_waypoint"
    let tt ← jget o "time_taken"
    pure ⟨rn, s, cw, tt, (jget o "error_message").getD (.str "")⟩

/-- `slave.last_seen_time = current_time` (line 313) on the record resolved
by the callback's precedence: `active_slaves` entry first, then
`slave = self` (lines 306-309). -/
def updateLastSeen (st : LeaderState) (ns : String) (now : Int) : LeaderState :=
  if ns ∈ slaveNames st then
    { st with slaves := st.slaves.map fun b =>
        if b.ns = ns then { b with lastSeen := now } else b }
  else if ns = st.selfNs then
    { st with selfRec := { st.selfRec with lastSeen := now } }
  else st

/-- `slave.waiting = False` (line 323), with the same resolution
precedence as `updateLastSeen`. -/
def setWaitingFalse (st : LeaderState) (ns : String) : LeaderState :=
  if ns ∈ slaveNames st then
    { st with slaves := st.slaves.map fun b =>
        if b.ns = ns then { b with waiting := false } else b }
  else if ns = st.selfNs then
    { st with selfRec := { st.selfRec with waiting := false } }
  else st

/-- `if current_waypoint in self.occupied_nodes: self.occupied_nodes.remove(...)`
(lines 316-320 and 329-331): drop the label if it is a string present in
the set; a numeric value is never a member of a set of string labels. -/
def removeOccLabelJ (st : LeaderState) (cw : JVal) : LeaderState :=
  match cw with
  | .str l => { st with occupied := st.occupied.filter (·.label ≠ l) }
  | .num _ => st

/-- `del self.active_slaves[slave_ns]` (line 333). -/
def removeSlave (st : LeaderState) (ns : String) : LeaderState :=
  { st with slaves := st.slaves.filter (·.ns ≠ ns) }

/-! ## Partition-and-assign

`partition_and_assign_waypoints` (simulator lines 341-416) calls the
external `partition_graph` and `calculate_dcpp_route`; both are taken as
parameters (`P`, `D`). `P` may fail (`ValueError` in the source, caught
at lines 374-376); `D` maps the waypoint list extracted from a subgraph,
and the subgraph itself, to an ordered route. -/

/-- Type of the external `partition_graph(graph, num, start_positions)`. -/
abbrev PartitionFn := NavGraph → Nat → List Pos → Except Unit (List NavGraph)

/-- Type of the external `calculate_dcpp_route(waypoints, subgraph, logger)`. -/
abbrev DcppFn := List Waypoint → NavGraph → List Waypoint

/-- `extract_waypoints` (lines 526-536): the node list of a subgraph. -/
def extractWaypoints (g : NavGraph) : List Waypoint :=
  g.nodes

/-- The `start_positions` list built at lines 353-364: the initial
positions of the peer slaves **in dictionary insertion order** (slaves
with unknown position are skipped with a warning), followed by the
master's own initial position. -/
def simStartPositions (st : LeaderState) : List Pos :=
  st.slaves.filterMap (·.pos) ++ st.selfRec.pos.toList

/-- Outcome of the guarded prefix of `partition_and_assign_waypoints`
while holding the lock (lines 346-383): either some guard aborted the
pass, or a plan pairing each sorted namespace with its computed route. -/
inductive PartitionOutcome where
  | aborted
  | planned (asgs : List (String × List Waypoint))
deriving DecidableEq, Repr, Inhabited

/-- Guards and route computation of lines 346-399 (graph already known to
be present): master position known (line 360), one start position per
agent (line 366), successful `partition_graph` call (lines 370-376),
subgraph count matching the sorted agent list (line 381); the plan pairs
`all_slaves_sorted[idx]` with `calculate_dcpp_route` of `subgraphs[idx]`
(lines 395-399). -/
def partitionPlan (P : PartitionFn) (D : DcppFn) (st : LeaderState)
    (g : NavGraph) : PartitionOutcome :=
  let num := st.slaves.length + 1
  if st.selfRec.pos = none then .aborted
  else
    let sps := simStartPositions st
    if sps.length ≠ num then .aborted
    else
      match P g num sps with
      | .error _ => .aborted
      | .ok sgs =>
        let sorted := sortedCandidates st
        if sgs.length ≠ sorted.length then .aborted
        else .planned (sorted.zip (sgs.map fun sg => D (extractWaypoints sg) sg))

/-- The reset loop of lines 386-393, for one namespace: clear the slave's
route, cursor and waiting flag if it is a peer; clear the master's own
route and cursor if it is the master (the master's `waiting` flag is not
touched by this loop). Both `if`s run, mirroring the source. -/
def resetStep (st : LeaderState) (ns : String) : LeaderState :=
  let st1 :=
    if ns ∈ slaveNames st then
      { st with slaves := st.slaves.map fun b =>
          if b.ns = ns then { b with route := [], cursor := 0, waiting := false }
          else b }
    else st
  if ns = st1.selfNs then
    { st1 with selfRec := { st1.selfRec with route := [], cursor := 0 } }
  else st1

/-- The assignment loop of lines 395-414, for one `(namespace, route)`
plan entry: store the route on the agent's record and immediately run
`assign_next_waypoint` for it; namespaces neither the master's nor a
known peer only log a warning. -/
def applyAssign (st : LeaderState) (ns : String) (route : List Waypoint) :
    LeaderState :=
  if ns = st.selfNs then
    assignNextWaypoint { st with selfRec := { st.selfRec with route := route } } ns
  else if ns ∈ slaveNames st then
    assignNextWaypoint
      { st with slaves := st.slaves.map fun b =>
          if b.ns = ns then { b with route := route } else b } ns
  else st

/-- `SlaveNavigationSimulator.partition_and_assign_waypoints`
(lines 341-416): abort without the graph; otherwise run the guards, and
on success reset every agent in sorted order, assign each planned route
in sorted order, and record that partitioning completed. The
`num_slaves == 0` early exit of lines 348-351 is dead code
(`num_slaves = len(active_slaves) + 1 ≥ 1`) and is mirrored verbatim.

NOTE: this is the cumulative transformation of the body as written. In
a run, a planned pass never completes: each `assign_next_waypoint` call
of the assignment loop re-acquires the non-reentrant lock already held
from line 346 and blocks (see `partitionExecTrace` / `execUpToBlock`
below). The function therefore over-approximates the states the program
reaches, and is used only for properties every operation preserves. -/
def partitionAndAssign (P : PartitionFn) (D : DcppFn) (st : LeaderState) :
    LeaderState :=
  match st.graph with
  | none => st
  | some g =>
    if st.slaves.length + 1 = 0 then { st with partitioningDone := false }
    else
      match partitionPlan P D st g with
      | .aborted => st
      | .planned asgs =>
        let sorted := sortedCandidates st
        let st1 := sorted.foldl resetStep st
        let st2 := asgs.foldl (fun s pr => applyAssign s pr.1 pr.2) st1
        { st2 with partitioningDone := true }

/-- `SlaveNavigationSimulator.navigation_status_callback` (lines 290-339)
as a pure transition on the leader state (the non-master branch, line
337-339, does nothing). Decode failure: unchanged state. A numeric
`robot_namespace` is neither a key of `active_slaves` nor equal to the
node's namespace string, so it falls into the unknown-sender branch.
For a known sender: refresh `last_seen_time`; on `"reached"` free the
reported label, clear the sender's waiting flag, reassign the sender and
drain the waiting list; on `"error"` free the reported label and, for a
peer sender, evict it from `active_slaves` and re-partition; any other
status only refreshes `last_seen_time`.

NOTE: this is the cumulative transformation of the callback body as
written. In a run, the `"reached"` branch (and the `"error"` branch
whenever a graph is present) never completes: the nested calls
re-acquire the non-reentrant lock held from line 305 and block (see
`navStatusExecTrace` / `execUpToBlock` below). The function therefore
over-approximates the states the program reaches, and is used only for
properties every operation preserves or for branches that take no
nested lock. -/
def navigationStatusCallback (P : PartitionFn) (D : DcppFn)
    (st : LeaderState) (now : Int) (p : Payload) : LeaderState :=
  match decodeStatus p with
  | none => st
  | some m =>
    if !st.isMaster then st
    else
      match m.robot_namespace with
      | .num _ => st
      | .str ns =>
        if ns ∈ slaveNames st ∨ ns = st.selfNs then
          let st0 := updateLastSeen st ns now
          if m.status = .str "reached" then
            let st1 := removeOccLabelJ st0 m.current_waypoint
            let st2 := setWaitingFalse st1 ns
            assignWaitingSlaves (assignNextWaypoint st2 ns)
          else if m.status = .str "error" then
            let st1 := removeOccLabelJ st0 m.current_waypoint
            if ns ∈ slaveNames st1 then partitionAndAssign P D (removeSlave st1 ns)
            else st1
          else st0
        else st

/-- `become_master` (lines 168-180): set `is_master`, and if the graph is
available publish it and run a partition pass (the periodic re-plan timer
is an external effect). Note `is_master` is set before the graph check,
so the node becomes leader even without a graph. -/
def becomeMaster (P : PartitionFn) (D : DcppFn) (st : LeaderState) :
    LeaderState :=
  let st1 := { st with isMaster := true }
  match st1.graph with
  | some _ => partitionAndAssign P D st1
  | none => st1

/-- `elect_new_master` (lines 151-166): compute the sorted candidate list;
if the head is the node's own namespace, become master, otherwise only
log the winner. -/
def electNewMaster (P : PartitionFn) (D : DcppFn) (st : LeaderState) :
    LeaderState :=
  match electWinner st with
  | none => st
  | some w => if w = st.selfNs then becomeMaster P D st else st

/-- `master_heartbeat_callback` (lines 118-121). -/
def masterHeartbeatCallback (st : LeaderState) (now : Int) : LeaderState :=
  { st with masterAlive := true, lastMasterHeartbeat := now }

/-- `check_master_alive` (lines 134-141). The `Bool` component records
whether `elect_new_master` was invoked on this tick (the observable
"election initiated" event of the claims); the state component is the
resulting node state. -/
def checkMasterAlive (P : PartitionFn) (D : DcppFn) (st : LeaderState)
    (now : Int) : LeaderState × Bool :=
  if st.masterAlive then ({ st with masterAlive := false }, false)
  else if now - st.lastMasterHeartbeat > st.heartbeatTimeout then
    (electNewMaster P D st, true)
  else (st, false)

/-- The master-side tail of `simulate_navigation` on simulated success
(lines 260-271), after the status message is published: increment the
node's own cursor (line 265, a plain `+= 1` with no wrap), free the
completed label (lines 266-269), then reassign itself and drain the
waiting list. -/
def simulateNavigationReached (st : LeaderState) (label : String) :
    LeaderState :=
  if st.isMaster then
    let st1 := { st with selfRec := { st.selfRec with cursor := st.selfRec.cursor + 1 } }
    let st2 := { st1 with occupied := st1.occupied.filter (·.label ≠ label) }
    assignWaitingSlaves (assignNextWaypoint st2 st2.selfNs)
  else st

/-- The state-variable initialization of `SlaveNavigationSimulator.__init__`
(lines 68-80): no master heard yet, 5-second heartbeat timeout, empty
peer table, no graph, empty occupancy set, follower role. `t0` is the
`time.time()` value read at line 70. The node's own `waiting` and
`last_seen_time` attributes are created dynamically on first write in the
Python source; they are modelled as fields initialized to `false`/`0`. -/
def initLeaderState (ns : String) (t0 : Int) : LeaderState where
  selfNs := ns
  selfRec := { ns := ns, route := [], cursor := 0, lastSeen := 0, pos := none,
               waiting := false }
  slaves := []
  occupied := []
  graph := none
  masterAlive := false
  lastMasterHeartbeat := t0
  heartbeatTimeout := 5
  isMaster := false
  partitioningDone := false
  sent := []

/-- Concrete stand-in for the external partitioner, used only to
instantiate universally quantified theorems at witness inputs: it always
fails, which makes every partition pass abort. -/
def trivPartition : PartitionFn := fun _ _ _ => .error ()

/-- Concrete stand-in for the external route solver, used only to
instantiate universally quantified theorems at witness inputs. -/
def trivDcpp : DcppFn := fun w _ => w

/-! ## Lock-acquisition traces

Every `with self.lock:` block of the source is mirrored by an
acquire/release pair; calls made *inside* such a block contribute their
own trace between the two events. `self.lock` is a non-reentrant
`threading.Lock` (line 80), so an `acq` at depth ≥ 1 blocks forever. -/

/-- A lock event on the single coordination lock. -/
inductive LockEv where
  | acq
  | rel
deriving DecidableEq, Repr

/-- Maximum nesting depth reached along a trace (an `acq` at running
depth 1 yields depth 2: a re-acquisition of the already-held lock). -/
def maxLockDepth (t : List LockEv) : Nat :=
  (t.foldl
    (fun p e => match e with
      | .acq => (p.1 + 1, max p.2 (p.1 + 1))
      | .rel => (p.1 - 1, p.2))
    ((0 : Nat), (0 : Nat))).2

/-- `assign_next_waypoint` wraps its whole body in `with self.lock:`
(line 419) and calls nothing that takes the lock synchronously
(`navigation_commands_callback` only spawns a thread). -/
def assignNextLockTrace : List LockEv := [.acq, .rel]

/-- `assign_waiting_slaves` wraps its whole body in `with self.lock:`
(line 465) with no synchronous lock-taking calls inside. -/
def assignWaitingLockTrace : List LockEv := [.acq, .rel]

/-- Lock trace of `partition_and_assign_waypoints`: nothing without a
graph (the early return at lines 342-344 precedes the `with self.lock:`
at line 346); otherwise one acquire/release around the body, with one
`assign_next_waypoint` trace per planned agent that is the master or a
known peer (lines 405-414). -/
def partitionLockTrace (P : PartitionFn) (D : DcppFn) (st : LeaderState) :
    List LockEv :=
  match st.graph with
  | none => []
  | some g =>
    if st.slaves.length + 1 = 0 then [.acq, .rel]
    else
      match partitionPlan P D st g with
      | .aborted => [.acq, .rel]
      | .planned asgs =>
        [.acq] ++
        (asgs.foldl
          (fun t pr =>
            t ++ (if pr.1 = st.selfNs ∨ pr.1 ∈ slaveNames st
                  then assignNextLockTrace else []))
          []) ++
        [.rel]

/-- Lock trace of `navigation_status_callback` (lines 290-339): nothing
before the `with self.lock:` at line 305 can take the lock; inside it,
the `"reached"` branch synchronously calls `assign_next_waypoint` and
`assign_waiting_slaves`, and the `"error"` branch calls
`partition_and_assign_waypoints` after evicting the sender (the trace of
that call is taken at the state the callback has built at that point). -/
def navStatusLockTrace (P : PartitionFn) (D : DcppFn) (st : LeaderState)
    (now : Int) (p : Payload) : List LockEv :=
  match decodeStatus p with
  | none => []
  | some m =>
    if !st.isMaster then []
    else
      match m.robot_namespace with
      | .num _ => [.acq, .rel]
      | .str ns =>
        if ns ∈ slaveNames st ∨ ns = st.selfNs then
          let st0 := updateLastSeen st ns now
          if m.status = .str "reached" then
            [.acq] ++ assignNextLockTrace ++ assignWaitingLockTrace ++ [.rel]
          else if m.status = .str "error" then
            let st1 := removeOccLabelJ st0 m.current_waypoint
            [.acq] ++
            (if ns ∈ slaveNames st1
             then partitionLockTrace P D (removeSlave st1 ns) else []) ++
            [.rel]
          else [.acq, .rel]
        else [.acq, .rel]

/-! ## Execution traces with command sends

The lock traces above record acquisitions only. To state what a handler
actually performs before it blocks, an `ExecEv` trace interleaves the
navigation-command publications (`send`) with the lock events, and
`execUpToBlock` cuts a trace at the first acquisition attempted while the
non-reentrant `threading.Lock` (line 80) is already held: that
acquisition blocks forever, so nothing after it runs. -/

/-- An event of a handler body: a lock acquisition, a lock release, or
the publication of a navigation command (`publish_navigation_command`,
called with an agent namespace and the target waypoint's label). -/
inductive ExecEv where
  | acq
  | rel
  | send (ns lbl : String)
deriving DecidableEq, Repr

/-- Whether an event is a command publication. -/
def isSend : ExecEv → Bool
  | .send _ _ => true
  | _ => false

/-- The command publications of one `assign_next_waypoint` body
(lines 420-459): none for an unknown agent or an empty route, none when
the target is occupied (the agent only turns Waiting), one send of the
target label otherwise. -/
def assignNextSends (st : LeaderState) (ns : String) : List ExecEv :=
  match anwResolve st ns with
  | none => []
  | some (_, a) =>
    if a.route.length = 0 then []
    else if (targetWp a).label ∈ occLabels st then []
    else [.send ns (targetWp a).label]

/-- Event trace of `assign_next_waypoint` (lines 418-462): the
`with self.lock:` of line 419 around the body's publications. -/
def assignNextExecTrace (st : LeaderState) (ns : String) : List ExecEv :=
  [.acq] ++ assignNextSends st ns ++ [.rel]

/-- The command publications of one `assign_waiting_slaves` loop
iteration (lines 467-508): one send exactly when the resolved agent is
waiting, has a route and its current target is free. -/
def awsStepSends (st : LeaderState) (ns : String) : List ExecEv :=
  match awsResolve st ns with
  | none => []
  | some (_, a) =>
    if a.waiting then
      if a.route.length = 0 then []
      else if (targetWp a).label ∈ occLabels st then []
      else [.send ns (targetWp a).label]
    else []

/-- Event trace of `assign_waiting_slaves` (lines 464-509): one
acquire/release (line 465) around the sorted scan, whose per-iteration
publications are accumulated against the evolving state. -/
def awsExecTrace (st : LeaderState) : List ExecEv :=
  [.acq] ++
  ((sortedCandidates st).foldl
    (fun pr n => (pr.1 ++ awsStepSends pr.2 n, awsStep pr.2 n))
    (([] : List ExecEv), st)).1 ++
  [.rel]

/-- Event trace of one assignment-loop iteration of
`partition_and_assign_waypoints` (lines 395-414): the route is stored
without producing events, then `assign_next_waypoint` is called at the
state with the route stored; a namespace neither the master's nor a
known peer only logs a warning. -/
def applyAssignTrace (st : LeaderState) (ns : String)
    (route : List Waypoint) : List ExecEv :=
  if ns = st.selfNs then
    assignNextExecTrace
      { st with selfRec := { st.selfRec with route := route } } ns
  else if ns ∈ slaveNames st then
    assignNextExecTrace
      { st with slaves := st.slaves.map fun b =>
          if b.ns = ns then { b with route := route } else b } ns
  else []

/-- Event trace of `partition_and_assign_waypoints` (lines 341-416):
nothing without a graph; otherwise one acquire/release (line 346) around
the body. On a planned pass the reset loop produces no events and each
plan entry contributes its `assign_next_waypoint` trace, accumulated
against the evolving state. -/
def partitionExecTrace (P : PartitionFn) (D : DcppFn) (st : LeaderState) :
    List ExecEv :=
  match st.graph with
  | none => []
  | some g =>
    if st.slaves.length + 1 = 0 then [.acq, .rel]
    else
      match partitionPlan P D st g with
      | .aborted => [.acq, .rel]
      | .planned asgs =>
        [.acq] ++
        (asgs.foldl
          (fun pr q => (pr.1 ++ applyAssignTrace pr.2 q.1 q.2,
                        applyAssign pr.2 q.1 q.2))
          (([] : List ExecEv), (sortedCandidates st).foldl resetStep st)).1 ++
        [.rel]

/-- Event trace of `navigation_status_callback` (lines 290-339),
refining `navStatusLockTrace` with the command publications: the
`"reached"` branch calls `assign_next_waypoint` at the state built by
lines 306-323 and `assign_waiting_slaves` at the state that call would
produce; the `"error"` branch calls `partition_and_assign_waypoints`
after the eviction of line 333. -/
def navStatusExecTrace (P : PartitionFn) (D : DcppFn) (st : LeaderState)
    (now : Int) (p : Payload) : List ExecEv :=
  match decodeStatus p with
  | none => []
  | some m =>
    if !st.isMaster then []
    else
      match m.robot_namespace with
      | .num _ => [.acq, .rel]
      | .str ns =>
        if ns ∈ slaveNames st ∨ ns = st.selfNs then
          let st0 := updateLastSeen st ns now
          if m.status = .str "reached" then
            let st1 := removeOccLabelJ st0 m.current_waypoint
            let st2 := setWaitingFalse st1 ns
            [.acq] ++ assignNextExecTrace st2 ns ++
            awsExecTrace (assignNextWaypoint st2 ns) ++ [.rel]
          else if m.status = .str "error" then
            let st1 := removeOccLabelJ st0 m.current_waypoint
            [.acq] ++
            (if ns ∈ slaveNames st1
             then partitionExecTrace P D (removeSlave st1 ns) else []) ++
            [.rel]
          else [.acq, .rel]
        else [.acq, .rel]

/-- The prefix of a trace that the non-reentrant lock lets execute,
given the current hold depth: an `acq` issued at depth ≥ 1 blocks
forever, and neither it nor anything after it runs. -/
def execUpToBlock : List ExecEv → Nat → List ExecEv
  | [], _ => []
  | .acq :: t, d => if d ≥ 1 then [] else .acq :: execUpToBlock t (d + 1)
  | .rel :: t, d => .rel :: execUpToBlock t (d - 1)
  | .send ns lbl :: t, d => .send ns lbl :: execUpToBlock t d

/-! ## The motion-bound node variant (`slave_navigation_node.py`)

Attribute initialization is modelled explicitly: `nodeInitAttrs` lists
every `self.<attr> = ...` assignment executed by
`SlaveNavigationNode.__init__` (lines 32-130), and reading an attribute
outside this list raises `AttributeError`. -/

/-- The attributes `SlaveNavigationNode.__init__` assigns, in source
order (lines 34-130). -/
def nodeInitAttrs : List String :=
  ["robot_namespace", "initial_x", "initial_y", "initial_orientation_str",
   "initial_orientation", "slave_registration_publisher",
   "initial_position_publisher", "navigation_commands_subscriber",
   "status_publisher", "heartbeat_publisher", "master_heartbeat_subscriber",
   "slave_heartbeat_subscriber", "graph_subscriber", "graph_publisher",
   "registration_timer", "heartbeat_timer", "initial_position_timer",
   "navigator", "master_alive", "last_master_heartbeat", "heartbeat_timeout",
   "active_slaves", "slaves", "navigation_graph", "occupied_nodes",
   "partitioning_done", "master_check_timer", "slave_check_timer", "is_master"]

/-- Read `self.<name>`: succeeds only when the attribute has been
assigned. -/
def readAttr (attrs : List String) (name : String) : Except String Unit :=
  if name ∈ attrs then .ok () else .error ("AttributeError: " ++ name)

/-- The start-position loop of `SlaveNavigationNode.partition_and_assign_waypoints`
(lines 419-430): iterate the sorted namespaces; the node's own namespace
contributes its own position; any other namespace first reads
`self.slave_initial_positions` (line 425) — an `AttributeError` if that
attribute was never assigned — and otherwise falls back to the master's
position when the peer's entry is missing. -/
def nodeStartPositions (attrs : List String) (selfNs : String)
    (selfPos : Pos) (slavePos : List (String × Pos)) (sorted : List String) :
    Except String (List Pos) :=
  sorted.foldlM
    (fun acc ns =>
      if ns = selfNs then .ok (acc ++ [selfPos])
      else do
        readAttr attrs "slave_initial_positions"
        match slavePos.find? (·.1 = ns) with
        | some kv => .ok (acc ++ [kv.2])
        | none => .ok (acc ++ [selfPos]))
    []

/-- `self.current_waypoint_index += 1` on the success path of
`SlaveNavigationNode.execute_navigation` (line 350): an augmented
assignment first *reads* the attribute, raising `AttributeError` when it
was never assigned; otherwise the incremented value. -/
def nodeAdvanceOwnCursor (attrs : List String) (cur : Nat) :
    Except String Nat := do
  readAttr attrs "current_waypoint_index"
  .ok (cur + 1)

/-! ## Reachable occupancy states (claim C2)

The base case allows any state whose occupancy set is empty — the
condition `__init__` establishes (line 74) — with arbitrary membership,
routes and cursors, over-approximating everything registration,
heartbeat and graph traffic can produce before the first assignment. -/

/-- One application of a leader-side assignment or status-handling
operation. -/
inductive LeaderOp (P : PartitionFn) (D : DcppFn) :
    LeaderState → LeaderState → Prop where
  | assign (st : LeaderState) (ns : String) :
      LeaderOp P D st (assignNextWaypoint st ns)
  | drainWaiting (st : LeaderState) :
      LeaderOp P D st (assignWaitingSlaves st)
  | repartition (st : LeaderState) :
      LeaderOp P D st (partitionAndAssign P D st)
  | status (st : LeaderState) (now : Int) (p : Payload) :
      LeaderOp P D st (navigationStatusCallback P D st now p)
  | ownReached (st : LeaderState) (label : String) :
      LeaderOp P D st (simulateNavigationReached st label)

/-- States reachable from an empty occupancy set by the leader's
assignment and status-handling operations. -/
inductive ReachableOcc (P : PartitionFn) (D : DcppFn) : LeaderState → Prop where
  | init (st : LeaderState) : st.occupied = [] → ReachableOcc P D st
  | step {st st' : LeaderState} :
      ReachableOcc P D st → LeaderOp P D st st' → ReachableOcc P D st'

/-! ## Waiting-agent safety

`safeForB st ns X` says the agent the waiting-scan resolves for `ns`
cannot reserve `X` on its own scan step: it is not waiting, or has no
route, or its current target is a different label. It supports the
lemmas about the waiting-scan fold of `assign_waiting_slaves`. -/

def safeForB (st : LeaderState) (ns : String) (X : String) : Bool :=
  match awsResolve st ns with
  | none => true
  | some (_, a) => !a.waiting || a.route.length = 0 || targetLabel a ≠ X

/-! ## Concrete states for counterexamples and witnesses -/

/-- Waypoints of the small three-node route used by concrete states. -/
def wpA : Waypoint := ⟨"A", 0, 0, 0⟩

def wpB : Waypoint := ⟨"B", 1, 0, 0⟩

def wpC : Waypoint := ⟨"C", 2, 0, 0⟩

def wpX : Waypoint := ⟨"X", 3, 0, 0⟩

/-- A peer-slave record with namespace `ns`, route `r`, cursor `c`,
waiting flag `w`. -/
def mkRec (ns : String) (r : List Waypoint) (c : Nat) (w : Bool) : AgentRec :=
  { ns := ns, route := r, cursor := c, lastSeen := 0, pos := none, waiting := w }

/-- A master state with namespace `m`, own record `own`, peers `sl`,
occupancy `occ` and no graph. -/
def mkMaster (m : String) (own : AgentRec) (sl : List AgentRec)
    (occ : List OccEntry) : LeaderState where
  selfNs := m
  selfRec := own
  slaves := sl
  occupied := occ
  graph := none
  masterAlive := false
  lastMasterHeartbeat := 0
  heartbeatTimeout := 5
  isMaster := true
  partitioningDone := false
  sent := []

/-- C3 counterexample state: master `robot_1`, one peer `robot_2` whose
in-flight target `X` is occupied on its behalf. -/
def st3 : LeaderState :=
  mkMaster "robot_1" (mkRec "robot_1" [] 0 false)
    [mkRec "robot_2" [wpX, wpA] 1 false] [⟨"robot_2", "X"⟩]

/-- C3 counterexample message: `robot_2` reports an error at `X`. -/
def p3 : Payload :=
  .obj [("robot_namespace", .str "robot_2"), ("status", .str "error"),
        ("current_waypoint", .str "X"), ("time_taken", .num 3),
        ("error_message", .str "boom")]

/-- C5 failing input: the leader has route `[A, B, C]`, has been assigned
`A` (cursor already advanced to 1), and completes the simulated motion to
`A`. -/
def st5 : LeaderState :=
  mkMaster "m" (mkRec "m" [wpA, wpB, wpC] 1 false) [] [⟨"m", "A"⟩]

/-- C4 failing input state: master `robot_1` with known peer `robot_2`. -/
def st4 : LeaderState :=
  mkMaster "robot_1" (mkRec "robot_1" [] 0 false)
    [mkRec "robot_2" [wpX] 0 false] [⟨"robot_2", "X"⟩]

/-- C4 failing input message: a well-formed `"reached"` report from the
known peer `robot_2`. -/
def p4 : Payload :=
  .obj [("robot_namespace", .str "robot_2"), ("status", .str "reached"),
        ("current_waypoint", .str "X"), ("time_taken", .num 15),
        ("error_message", .str "")]

/-- C6 counterexample state: the peer `b` (inserted first, position
`(5, 5)`) and the master `a` (position `(1, 1)`). -/
def st6 : LeaderState :=
  mkMaster "a"
    { ns := "a", route := [], cursor := 0, lastSeen := 0,
      pos := some ⟨1, 1⟩, waiting := false }
    [{ ns := "b", route := [], cursor := 0, lastSeen := 0,
       pos := some ⟨5, 5⟩, waiting := false }] []

/-- The position the namespace-correlated reading of C6 would seed the
`i`-th subgraph with: the initial position of the `i`-th namespace in
sorted order. -/
def namespacePos (st : LeaderState) (ns : String) : Option Pos :=
  if ns = st.selfNs then st.selfRec.pos else (findSlave st ns).bind (·.pos)

/-- The route currently stored for a namespace, resolved the way the
assignment code resolves agents (the master's own record first, then the
`active_slaves` entry). -/
def routeOf (st : LeaderState) (ns : String) : Option (List Waypoint) :=
  if ns = st.selfNs then some st.selfRec.route
  else (findSlave st ns).map (·.route)

/-- C6 witness graph: two nodes, no edges. -/
def g6 : NavGraph := ⟨[wpA, wpB], []⟩

/-- C6 witness subgraph list: singleton-node graphs. -/
def sgs6 : List NavGraph := [⟨[wpA], []⟩, ⟨[wpB], []⟩]

/-- C6 witness partitioner: always returns `sgs6`. -/
def part6 : PartitionFn := fun _ _ _ => .ok sgs6

/-- C6 witness state: `st6` with the navigation graph available. -/
def st6w : LeaderState := { st6 with graph := some g6 }

/-- C8 counterexample state: a heartbeat arrived at time 0 (setting the
`master_alive` flag), and no election tick has run since. -/
def st8 : LeaderState :=
  masterHeartbeatCallback (initLeaderState "robot_1" 0) 0

/-- C1 witness state: follower `robot_c` with live peers `robot_a` and
`robot_b` (the spec's election scenario). -/
def st1w : LeaderState :=
  { mkMaster "robot_c" (mkRec "robot_c" [] 0 false)
      [mkRec "robot_a" [] 0 false, mkRec "robot_b" [] 0 false] [] with
    isMaster := false }

/-- C7 failing-input state: master `m` (no own route), peer `r2` in
flight to `X`, peer `r3` waiting for `X`. -/
def st7 : LeaderState :=
  mkMaster "m" (mkRec "m" [] 0 false)
    [mkRec "r2" [wpX, wpB] 1 false, mkRec "r3" [wpX, wpC] 0 true]
    [⟨"r2", "X"⟩]

/-- C7 failing-input message: `r2` reports it reached `X`. -/
def p7 : Payload :=
  .obj [("robot_namespace", .str "r2"), ("status", .str "reached"),
        ("current_waypoint", .str "X"), ("time_taken", .num 15),
        ("error_message", .str "")]

/-- C2 witness state: a fresh master `m` with route `[A, B]` and empty
occupancy set, about to assign itself its first waypoint. -/
def st2w : LeaderState :=
  mkMaster "m" (mkRec "m" [wpA, wpB] 0 false) [] []

/-- C9 witness payload: a status object missing the required
`current_waypoint` field. -/
def p9 : Payload :=
  .obj [("robot_namespace", .str "robot_2"), ("status", .str "reached"),
        ("time_taken", .num 15)]

/-! # Theorems -/

/-! ## Sorting facts -/

theorem strle_iff (a b : String) : strle a b ↔ a ≤ b :=
  String.le_iff_toList_le.symm

theorem pySorted_perm (l : List String) : (pySorted l).Perm l :=
  List.perm_insertionSort _ l

theorem pySorted_pairwise (l : List String) :
    (pySorted l).Pairwise (· ≤ ·) :=
  (List.sorted_insertionSort strle l).imp fun h => (strle_iff ..).mp h

theorem pySorted_head_min {l : List String} {w : String}
    (hw : (pySorted l).head? = some w) : ∀ c ∈ l, w ≤ c := by
  intro c hc
  have hc' : c ∈ pySorted l := ((pySorted_perm l).mem_iff).mpr hc
  rcases hs : pySorted l with _ | ⟨x, t⟩
  · simp [hs] at hw
  · have hx : x = w := by simpa [hs] using hw
    subst hx
    rcases (by simpa [hs] using hc' : c = x ∨ c ∈ t) with rfl | hct
    · exact le_refl _
    · have := pySorted_pairwise l
      rw [hs] at this
      exact (List.pairwise_cons.mp this).1 c hct

theorem pySorted_head_mem {l : List String} {w : String}
    (hw : (pySorted l).head? = some w) : w ∈ l := by
  have : w ∈ pySorted l := by
    rcases hs : pySorted l with _ | ⟨x, t⟩
    · simp [hs] at hw
    · simp [hs] at hw ⊢; exact Or.inl hw.symm
  exact ((pySorted_perm l).mem_iff).mp this

/-! ## Frame lemmas: which fields each operation leaves untouched -/

theorem foldl_pres {α β : Type _} {f : LeaderState → α → LeaderState}
    (F : LeaderState → β) (h : ∀ s x, F (f s x) = F s) :
    ∀ (l : List α) (s : LeaderState), F (l.foldl f s) = F s := by
  intro l
  induction l with
  | nil => intro s; rfl
  | cons x t ih => intro s; rw [List.foldl_cons, ih, h]

theorem setRec_isMaster (st : LeaderState) (sf : Bool) (ns : String)
    (a : AgentRec) : (setRec st sf ns a).isMaster = st.isMaster := by
  unfold setRec; split <;> rfl

theorem setRec_selfNs (st : LeaderState) (sf : Bool) (ns : String)
    (a : AgentRec) : (setRec st sf ns a).selfNs = st.selfNs := by
  unfold setRec; split <;> rfl

theorem setRec_graph (st : LeaderState) (sf : Bool) (ns : String)
    (a : AgentRec) : (setRec st sf ns a).graph = st.graph := by
  unfold setRec; split <;> rfl

theorem setRec_occupied (st : LeaderState) (sf : Bool) (ns : String)
    (a : AgentRec) : (setRec st sf ns a).occupied = st.occupied := by
  unfold setRec; split <;> rfl

theorem setRec_sent (st : LeaderState) (sf : Bool) (ns : String)
    (a : AgentRec) : (setRec st sf ns a).sent = st.sent := by
  unfold setRec; split <;> rfl

theorem assignNextWaypoint_isMaster (st : LeaderState) (ns : String) :
    (assignNextWaypoint st ns).isMaster = st.isMaster := by
  unfold assignNextWaypoint
  rcases anwResolve st ns with _ | ⟨sf, a⟩
  · rfl
  · dsimp only
    split
    · rfl
    · split
      · exact setRec_isMaster ..
      · exact setRec_isMaster ..

theorem assignNextWaypoint_selfNs (st : LeaderState) (ns : String) :
    (assignNextWaypoint st ns).selfNs = st.selfNs := by
  unfold assignNextWaypoint
  rcases anwResolve st ns with _ | ⟨sf, a⟩
  · rfl
  · dsimp only
    split
    · rfl
    · split
      · exact setRec_selfNs ..
      · exact setRec_selfNs ..

theorem assignNextWaypoint_graph (st : LeaderState) (ns : String) :
    (assignNextWaypoint st ns).graph = st.graph := by
  unfold assignNextWaypoint
  rcases anwResolve st ns with _ | ⟨sf, a⟩
  · rfl
  · dsimp only
    split
    · rfl
    · split
      · exact setRec_graph ..
      · exact setRec_graph ..

theorem awsStep_isMaster (st : LeaderState) (ns : String) :
    (awsStep st ns).isMaster = st.isMaster := by
  unfold awsStep
  rcases awsResolve st ns with _ | ⟨sf, a⟩
  · rfl
  · dsimp only
    split
    · split
      · rfl
      · split
        · rfl
        · exact setRec_isMaster ..
    · rfl

theorem awsStep_selfNs (st : LeaderState) (ns : String) :
    (awsStep st ns).selfNs = st.selfNs := by
  unfold awsStep
  rcases awsResolve st ns with _ | ⟨sf, a⟩
  · rfl
  · dsimp only
    split
    · split
      · rfl
      · split
        · rfl
        · exact setRec_selfNs ..
    · rfl

theorem assignWaitingSlaves_isMaster (st : LeaderState) :
    (assignWaitingSlaves st).isMaster = st.isMaster :=
  foldl_pres (·.isMaster) awsStep_isMaster _ st

theorem resetStep_isMaster (st : LeaderState) (ns : String) :
    (resetStep st ns).isMaster = st.isMaster := by
  unfold resetStep
  dsimp only
  split <;> split <;> rfl

theorem applyAssign_isMaster (st : LeaderState) (ns : String)
    (route : List Waypoint) :
    (applyAssign st ns route).isMaster = st.isMaster := by
  unfold applyAssign
  split
  · exact assignNextWaypoint_isMaster ..
  · split
    · exact assignNextWaypoint_isMaster ..
    · rfl

theorem partitionAndAssign_isMaster (P : PartitionFn) (D : DcppFn)
    (st : LeaderState) :
    (partitionAndAssign P D st).isMaster = st.isMaster := by
  unfold partitionAndAssign
  rcases st.graph with _ | g
  · rfl
  · dsimp only
    split
    · rfl
    · rcases partitionPlan P D st g with _ | asgs
      · rfl
      · dsimp only
        rw [foldl_pres (f := fun s (pr : String × List Waypoint) =>
            applyAssign s pr.1 pr.2) (·.isMaster)
          (fun s pr => applyAssign_isMaster s pr.1 pr.2)]
        exact foldl_pres (·.isMaster) resetStep_isMaster _ st

theorem becomeMaster_isMaster (P : PartitionFn) (D : DcppFn)
    (st : LeaderState) : (becomeMaster P D st).isMaster = true := by
  unfold becomeMaster
  rcases hg : ({ st with isMaster := true } : LeaderState).graph with _ | g
  · simp only [hg]
  · simp only [hg, partitionAndAssign_isMaster]

/-! ## Claim C1: election -/

theorem electWinner_isSome (st : LeaderState) :
    ∃ w, electWinner st = some w := by
  unfold electWinner
  rcases hs : pySorted (electCandidates st) with _ | ⟨x, t⟩
  · exfalso
    have := (pySorted_perm (electCandidates st)).length_eq
    rw [hs] at this
    simp [electCandidates] at this
  · exact ⟨x, by simp [hs]⟩

/-- C1. Election: the winner computed by `elect_new_master` is the
lexicographically smallest namespace among the known live peers together
with the node's own namespace; a follower transitions to leader exactly
when that winner is its own namespace; and any process whose candidate
set has the same members computes the same winner. -/
theorem C1_election_lexmin_deterministic (P : PartitionFn) (D : DcppFn)
    (st : LeaderState) (hpeers : slaveNames st ≠ [])
    (hfollower : st.isMaster = false) :
    ∃ w, electWinner st = some w ∧
      w ∈ electCandidates st ∧
      (∀ c ∈ electCandidates st, w ≤ c) ∧
      ((electNewMaster P D st).isMaster = true ↔ w = st.selfNs) ∧
      (∀ st' : LeaderState,
        (∀ x, x ∈ electCandidates st ↔ x ∈ electCandidates st') →
        electWinner st' = some w) := by
  obtain ⟨w, hw⟩ := electWinner_isSome st
  refine ⟨w, hw, pySorted_head_mem hw, pySorted_head_min hw, ?_, ?_⟩
  · constructor
    · intro hm
      by_contra hne
      unfold electNewMaster at hm
      rw [hw] at hm
      simp only [if_neg hne] at hm
      rw [hfollower] at hm
      exact Bool.false_ne_true hm
    · intro hws
      unfold electNewMaster
      rw [hw]
      simp only [if_pos hws]
      exact becomeMaster_isMaster ..
  · intro st' hmem
    obtain ⟨w', hw'⟩ := electWinner_isSome st'
    have hww' : w ≤ w' := pySorted_head_min hw w'
      ((hmem w').mpr (pySorted_head_mem hw'))
    have hw'w : w' ≤ w := pySorted_head_min hw' w
      ((hmem w).mp (pySorted_head_mem hw))
    rw [hw']
    exact congrArg some (le_antisymm hw'w hww')

/-- C1 witness: on the spec's scenario state (peers `robot_a`, `robot_b`,
self `robot_c`), the election theorem applies and the winner is
`robot_a`. -/
theorem C1_witness :
    slaveNames st1w ≠ [] ∧ st1w.isMaster = false ∧
    (∃ w, electWinner st1w = some w ∧
      w ∈ electCandidates st1w ∧
      (∀ c ∈ electCandidates st1w, w ≤ c) ∧
      ((electNewMaster trivPartition trivDcpp st1w).isMaster = true ↔
        w = st1w.selfNs) ∧
      (∀ st' : LeaderState,
        (∀ x, x ∈ electCandidates st1w ↔ x ∈ electCandidates st') →
        electWinner st' = some w)) ∧
    electWinner st1w = some "robot_a" :=
  ⟨by decide, rfl,
   C1_election_lexmin_deterministic trivPartition trivDcpp st1w (by decide) rfl,
   by decide⟩

/-! ## Name-preservation frame lemmas -/

theorem map_ns_set_eq (l : List AgentRec) (a : AgentRec) (ns : String)
    (ha : a.ns = ns) :
    (l.map fun b => if b.ns = ns then a else b).map (·.ns) = l.map (·.ns) := by
  rw [List.map_map]
  apply List.map_congr_left
  intro b _
  by_cases h : b.ns = ns <;> simp [h, ha]

theorem map_ns_upd_eq (l : List AgentRec) (f : AgentRec → AgentRec)
    (ns : String) (hf : ∀ b, (f b).ns = b.ns) :
    (l.map fun b => if b.ns = ns then f b else b).map (·.ns) = l.map (·.ns) := by
  rw [List.map_map]
  apply List.map_congr_left
  intro b _
  by_cases h : b.ns = ns <;> simp [h, hf]

theorem findSlave_ns {st : LeaderState} {ns : String} {a : AgentRec}
    (h : findSlave st ns = some a) : a.ns = ns := by
  have := List.find?_some h
  simpa using this

theorem slaveNames_setRec_self (st : LeaderState) (ns : String)
    (a : AgentRec) : slaveNames (setRec st true ns a) = slaveNames st := rfl

theorem slaveNames_setRec_key (st : LeaderState) (ns : String)
    (a : AgentRec) (ha : a.ns = ns) :
    slaveNames (setRec st false ns a) = slaveNames st := by
  unfold setRec
  rw [if_neg Bool.false_ne_true]
  unfold slaveNames
  exact map_ns_set_eq st.slaves a ns ha

theorem slaveNames_setRec_st1 (st : LeaderState) (oc : List OccEntry)
    (se : List (String × String)) (sf : Bool) (ns : String) (a : AgentRec)
    (ha : sf = false → a.ns = ns) :
    slaveNames (setRec { st with occupied := oc, sent := se } sf ns a) =
      slaveNames st := by
  cases sf
  · unfold setRec
    rw [if_neg Bool.false_ne_true]
    unfold slaveNames
    exact map_ns_set_eq st.slaves a ns (ha rfl)
  · unfold setRec
    rw [if_pos rfl]
    rfl

theorem slaveNames_assignNextWaypoint (st : LeaderState) (ns : String) :
    slaveNames (assignNextWaypoint st ns) = slaveNames st := by
  unfold assignNextWaypoint anwResolve
  by_cases hself : ns = st.selfNs
  · rw [if_pos hself]
    dsimp only
    split
    · rfl
    · split
      · rfl
      · exact slaveNames_setRec_st1 st _ _ true ns _ (fun h => nomatch h)
  · rw [if_neg hself]
    rcases hf : findSlave st ns with _ | a
    · rfl
    · have ha : a.ns = ns := findSlave_ns hf
      dsimp only [Option.map_some']
      split
      · rfl
      · split
        · exact slaveNames_setRec_key st ns _ ha
        · exact slaveNames_setRec_st1 st _ _ false ns _ (fun _ => ha)

theorem slaveNames_awsStep (st : LeaderState) (ns : String) :
    slaveNames (awsStep st ns) = slaveNames st := by
  unfold awsStep awsResolve
  by_cases hself : ns = st.selfNs ∧ st.isMaster = true
  · rw [if_pos hself]
    dsimp only
    split
    · split
      · rfl
      · split
        · rfl
        · exact slaveNames_setRec_st1 st _ _ true ns _ (fun h => nomatch h)
    · rfl
  · rw [if_neg hself]
    rcases hf : findSlave st ns with _ | a
    · rfl
    · have ha : a.ns = ns := findSlave_ns hf
      dsimp only [Option.map_some']
      split
      · split
        · rfl
        · split
          · rfl
          · exact slaveNames_setRec_st1 st _ _ false ns _ (fun _ => ha)
      · rfl

theorem slaveNames_assignWaitingSlaves (st : LeaderState) :
    slaveNames (assignWaitingSlaves st) = slaveNames st :=
  foldl_pres slaveNames slaveNames_awsStep _ st

theorem slaveNames_resetStep (st : LeaderState) (ns : String) :
    slaveNames (resetStep st ns) = slaveNames st := by
  unfold resetStep
  dsimp only
  split
  · split
    · unfold slaveNames
      exact map_ns_upd_eq st.slaves _ ns (fun b => rfl)
    · unfold slaveNames
      exact map_ns_upd_eq st.slaves _ ns (fun b => rfl)
  · split
    · rfl
    · rfl

theorem slaveNames_applyAssign (st : LeaderState) (ns : String)
    (route : List Waypoint) :
    slaveNames (applyAssign st ns route) = slaveNames st := by
  unfold applyAssign
  split
  · rw [slaveNames_assignNextWaypoint]
    rfl
  · split
    · rw [slaveNames_assignNextWaypoint]
      show (st.slaves.map fun b =>
        if b.ns = ns then { b with route := route } else b).map (·.ns) =
          slaveNames st
      exact map_ns_upd_eq st.slaves _ ns (fun b => rfl)
    · rfl

theorem slaveNames_partitionAndAssign (P : PartitionFn) (D : DcppFn)
    (st : LeaderState) :
    slaveNames (partitionAndAssign P D st) = slaveNames st := by
  unfold partitionAndAssign
  rcases st.graph with _ | g
  · rfl
  · dsimp only
    split
    · rfl
    · rcases partitionPlan P D st g with _ | asgs
      · rfl
      · dsimp only
        show slaveNames (asgs.foldl (fun s pr => applyAssign s pr.1 pr.2)
          ((sortedCandidates st).foldl resetStep st)) = slaveNames st
        rw [foldl_pres (f := fun s (pr : String × List Waypoint) =>
            applyAssign s pr.1 pr.2) slaveNames
          (fun s pr => slaveNames_applyAssign s pr.1 pr.2)]
        exact foldl_pres slaveNames slaveNames_resetStep _ st

theorem slaveNames_updateLastSeen (st : LeaderState) (ns : String)
    (now : Int) : slaveNames (updateLastSeen st ns now) = slaveNames st := by
  unfold updateLastSeen
  split
  · unfold slaveNames
    exact map_ns_upd_eq st.slaves _ ns (fun b => rfl)
  · split <;> rfl

theorem slaveNames_setWaitingFalse (st : LeaderState) (ns : String) :
    slaveNames (setWaitingFalse st ns) = slaveNames st := by
  unfold setWaitingFalse
  split
  · unfold slaveNames
    exact map_ns_upd_eq st.slaves _ ns (fun b => rfl)
  · split <;> rfl

theorem slaveNames_removeSlave (st : LeaderState) (ns : String) :
    slaveNames (removeSlave st ns) = (slaveNames st).filter (· ≠ ns) := by
  unfold removeSlave slaveNames
  dsimp only
  induction st.slaves with
  | nil => rfl
  | cons b t ih =>
    simp only [List.map_cons, List.filter_cons]
    by_cases h : b.ns = ns
    · simpa [h] using ih
    · simpa [h] using ih

theorem graph_updateLastSeen (st : LeaderState) (ns : String) (now : Int) :
    (updateLastSeen st ns now).graph = st.graph := by
  unfold updateLastSeen; split
  · rfl
  · split <;> rfl

theorem graph_removeOccLabelJ (st : LeaderState) (cw : JVal) :
    (removeOccLabelJ st cw).graph = st.graph := by
  unfold removeOccLabelJ; split <;> rfl

theorem occupied_updateLastSeen (st : LeaderState) (ns : String) (now : Int) :
    (updateLastSeen st ns now).occupied = st.occupied := by
  unfold updateLastSeen; split
  · rfl
  · split <;> rfl

theorem sent_updateLastSeen (st : LeaderState) (ns : String) (now : Int) :
    (updateLastSeen st ns now).sent = st.sent := by
  unfold updateLastSeen; split
  · rfl
  · split <;> rfl

theorem slaveNames_removeOccLabelJ (st : LeaderState) (cw : JVal) :
    slaveNames (removeOccLabelJ st cw) = slaveNames st := by
  unfold removeOccLabelJ; split <;> rfl

theorem sent_removeOccLabelJ (st : LeaderState) (cw : JVal) :
    (removeOccLabelJ st cw).sent = st.sent := by
  unfold removeOccLabelJ; split <;> rfl

theorem occLabels_updateLastSeen (st : LeaderState) (ns : String)
    (now : Int) : occLabels (updateLastSeen st ns now) = occLabels st := by
  unfold occLabels
  rw [occupied_updateLastSeen]

theorem occLabels_removeOcc_str (st : LeaderState) (X : String) :
    occLabels (removeOccLabelJ st (.str X)) = (occLabels st).filter (· ≠ X) := by
  unfold removeOccLabelJ occLabels
  dsimp only
  induction st.occupied with
  | nil => rfl
  | cons e t ih =>
    simp only [List.map_cons, List.filter_cons]
    by_cases h : e.label = X
    · simpa [h] using ih
    · simpa [h] using ih

/-! ## Claim C9: malformed status payloads are dropped atomically -/

/-- C9. For every navigation-status message whose payload fails JSON
decoding or lacks a required field, the handler returns with the whole
node state — OccupancySet, agent records, route cursors, waiting flags,
sent-message log — unchanged; the message is dropped (no retry exists in
the handler). -/
theorem C9_malformed_status_unchanged (P : PartitionFn) (D : DcppFn)
    (st : LeaderState) (now : Int) (p : Payload)
    (h : decodeStatus p = none) :
    navigationStatusCallback P D st now p = st := by
  unfold navigationStatusCallback
  rw [h]

/-- C9 witness: a syntactically malformed payload and an object missing
the required `current_waypoint` field both leave a concrete state
untouched. -/
theorem C9_witness :
    decodeStatus Payload.malformed = none ∧
    decodeStatus p9 = none ∧
    navigationStatusCallback trivPartition trivDcpp
      (initLeaderState "robot_1" 0) 5 Payload.malformed =
      initLeaderState "robot_1" 0 ∧
    navigationStatusCallback trivPartition trivDcpp
      (initLeaderState "robot_1" 0) 5 p9 = initLeaderState "robot_1" 0 :=
  ⟨rfl, by decide,
   C9_malformed_status_unchanged trivPartition trivDcpp
     (initLeaderState "robot_1" 0) 5 Payload.malformed rfl,
   C9_malformed_status_unchanged trivPartition trivDcpp
     (initLeaderState "robot_1" 0) 5 p9 (by decide)⟩

/-! ## Claim C8: leader-death detection -/

/-- C8 counterexample: a leader heartbeat was received at time 0, setting
the `master_alive` flag; the next check tick runs at time 100, so the
elapsed time (100) exceeds the 5-second timeout, yet no election is
initiated — the tick only clears the flag. This refutes the claimed
"if and only if elapsed > timeout" characterization. -/
theorem C8_claim_counterexample :
    (100 : Int) - st8.lastMasterHeartbeat > st8.heartbeatTimeout ∧
    (checkMasterAlive trivPartition trivDcpp st8 100).2 = false := by decide

/-- C8 amended: on a check tick, an election is initiated **iff** no
leader heartbeat arrived since the previous tick (the `master_alive`
flag is down) **and** the elapsed time since the last heartbeat exceeds
the timeout; the timeout is initialized to 5 seconds. -/
theorem C8_amended_flag_gated_timeout (P : PartitionFn) (D : DcppFn)
    (st : LeaderState) (now : Int) (ns : String) (t0 : Int) :
    ((checkMasterAlive P D st now).2 = true ↔
      (st.masterAlive = false ∧
        now - st.lastMasterHeartbeat > st.heartbeatTimeout)) ∧
    (initLeaderState ns t0).heartbeatTimeout = 5 := by
  refine ⟨?_, rfl⟩
  unfold checkMasterAlive
  by_cases h : st.masterAlive = true
  · simp [h]
  · simp only [Bool.not_eq_true] at h
    by_cases h2 : now - st.lastMasterHeartbeat > st.heartbeatTimeout
    · simp [h, h2]
    · simp [h, h2]

/-! ## Claim C5: route-cursor semantics at the leader's own completion -/

/-- C5 evaluation at the failing input: the leader's route is
`[A, B, C]` with the cursor at 1 (pointing at `B`, the next waypoint per
the claimed by-one advance) when the simulated motion to `A` completes.
The completion path increments the cursor once itself (line 265) before
`assign_next_waypoint` increments it again, so the next command sent is
`C` — waypoint `B` is skipped — and the cursor nets an advance of two
(1 → 0 ≡ 3 mod 3) for one completed waypoint. -/
theorem C5_leader_double_advance_eval :
    st5.selfRec.cursor = 1 ∧
    targetLabel st5.selfRec = "B" ∧
    (simulateNavigationReached st5 "A").sent = [("m", "C")] ∧
    (simulateNavigationReached st5 "A").selfRec.cursor = 0 := by decide

/-! ## Claim C3: error reports evict the reporting peer -/

/-- C3 counterexample: the known peer `robot_2` reports an error; the
claim says it stays in the membership set, but the handler deletes it
from `active_slaves`. -/
theorem C3_claim_counterexample :
    "robot_2" ∈ slaveNames st3 ∧
    "robot_2" ∉
      slaveNames (navigationStatusCallback trivPartition trivDcpp st3 7 p3) := by
  decide

/-- C3 amended: on a navigation-status `"error"` from a known peer, the
leader frees the reported target label, sends nothing to the reporter in
the same pass, and **removes the reporter from `active_slaves`**,
triggering a full re-partition (which, without a graph, aborts). The
eviction holds for every behaviour of the external partitioner. -/
theorem C3_amended_error_evicts (P : PartitionFn) (D : DcppFn)
    (st : LeaderState) (now : Int) (p : Payload) (m : StatusMsg)
    (ns X : String)
    (hm : decodeStatus p = some m) (hM : st.isMaster = true)
    (hns : m.robot_namespace = .str ns) (hs : m.status = .str "error")
    (hcw : m.current_waypoint = .str X) (hmem : ns ∈ slaveNames st) :
    ns ∉ slaveNames (navigationStatusCallback P D st now p) ∧
    (st.graph = none →
      navigationStatusCallback P D st now p =
        removeSlave (removeOccLabelJ (updateLastSeen st ns now) (.str X)) ns ∧
      occLabels (navigationStatusCallback P D st now p) =
        (occLabels st).filter (· ≠ X) ∧
      (navigationStatusCallback P D st now p).sent = st.sent) := by
  have hmem1 : ns ∈ slaveNames
      (removeOccLabelJ (updateLastSeen st ns now) m.current_waypoint) := by
    rw [slaveNames_removeOccLabelJ, slaveNames_updateLastSeen]
    exact hmem
  have hred : navigationStatusCallback P D st now p =
      partitionAndAssign P D
        (removeSlave
          (removeOccLabelJ (updateLastSeen st ns now) m.current_waypoint) ns) := by
    unfold navigationStatusCallback
    rw [hm]
    dsimp only
    rw [hM]
    rw [if_neg (by decide : ¬((!true : Bool) = true))]
    rw [hns]
    dsimp only
    rw [if_pos (Or.inl hmem)]
    rw [hs]
    rw [if_neg (by decide : ¬(JVal.str "error" = JVal.str "reached"))]
    rw [if_pos rfl]
    rw [if_pos hmem1]
  constructor
  · rw [hred, slaveNames_partitionAndAssign, slaveNames_removeSlave,
      slaveNames_removeOccLabelJ, slaveNames_updateLastSeen]
    intro hc
    have := (List.mem_filter.mp hc).2
    simp at this
  · intro hg
    have hg2 : (removeSlave
        (removeOccLabelJ (updateLastSeen st ns now) m.current_waypoint)
        ns).graph = none := by
      show (removeOccLabelJ (updateLastSeen st ns now) m.current_waypoint).graph
        = none
      rw [graph_removeOccLabelJ, graph_updateLastSeen]
      exact hg
    have hstop : navigationStatusCallback P D st now p =
        removeSlave
          (removeOccLabelJ (updateLastSeen st ns now) m.current_waypoint) ns := by
      rw [hred]
      unfold partitionAndAssign
      rw [hg2]
    rw [hcw] at hstop
    refine ⟨hstop, ?_, ?_⟩
    · rw [hstop]
      show occLabels (removeOccLabelJ (updateLastSeen st ns now) (.str X)) =
        (occLabels st).filter (· ≠ X)
      rw [occLabels_removeOcc_str, occLabels_updateLastSeen]
    · rw [hstop]
      show (removeOccLabelJ (updateLastSeen st ns now) (.str X)).sent = st.sent
      rw [sent_removeOccLabelJ, sent_updateLastSeen]

/-- C3 amended witness: on the concrete state `st3` and error report
`p3`, the peer is evicted and the occupancy entry for `X` is freed. -/
theorem C3_amended_witness :
    "robot_2" ∉
      slaveNames (navigationStatusCallback trivPartition trivDcpp st3 7 p3) ∧
    occLabels (navigationStatusCallback trivPartition trivDcpp st3 7 p3) =
      [] := by
  have h := C3_amended_error_evicts trivPartition trivDcpp st3 7 p3
      ⟨.str "robot_2", .str "error", .str "X", .num 3, .str "boom"⟩
      "robot_2" "X" (by decide) rfl rfl rfl rfl (by decide)
  refine ⟨h.1, ?_⟩
  rw [(h.2 rfl).2.1]
  decide

/-! ## Claim C4: lock discipline of the status handler -/

/-- C4 evaluation at the failing input: handling a well-formed
`"reached"` report from a known peer, the callback acquires the single
non-reentrant coordination lock and, still holding it, calls
`assign_next_waypoint` and `assign_waiting_slaves`, each of which
acquires the same lock again — the nesting depth reaches 2, so the
callback blocks forever on a `threading.Lock` instead of terminating
with at most one acquisition. -/
theorem C4_nested_lock_acquisition_eval :
    navStatusLockTrace trivPartition trivDcpp st4 3 p4 =
      [.acq, .acq, .rel, .acq, .rel, .rel] ∧
    maxLockDepth (navStatusLockTrace trivPartition trivDcpp st4 3 p4) = 2 := by
  decide

/-! ## Claim C10: uninitialized attributes in the motion-bound node -/

/-- C10 evaluation at the failing input: `SlaveNavigationNode.__init__`
never assigns `slave_initial_positions` or `current_waypoint_index`; as
soon as one peer slave (`robot_2`) is known, the start-position loop of
`partition_and_assign_waypoints` reads `self.slave_initial_positions`
and raises `AttributeError`, and the success path of
`execute_navigation` raises `AttributeError` on
`self.current_waypoint_index += 1`. -/
theorem C10_uninitialized_attribute_reads :
    "slave_initial_positions" ∉ nodeInitAttrs ∧
    "current_waypoint_index" ∉ nodeInitAttrs ∧
    nodeStartPositions nodeInitAttrs "robot_1" ⟨0, 0⟩ []
      ["robot_1", "robot_2"] =
      .error "AttributeError: slave_initial_positions" ∧
    nodeAdvanceOwnCursor nodeInitAttrs 0 =
      .error "AttributeError: current_waypoint_index" :=
  ⟨by decide, by decide, rfl, rfl⟩

/-! ## Claim C2: the occupancy invariant -/

theorem foldl_pres_prop {α : Type _} {f : LeaderState → α → LeaderState}
    (Q : LeaderState → Prop) (h : ∀ s x, Q s → Q (f s x)) :
    ∀ (l : List α) (s : LeaderState), Q s → Q (l.foldl f s) := by
  intro l
  induction l with
  | nil => intro s hs; exact hs
  | cons x t ih => intro s hs; rw [List.foldl_cons]; exact ih _ (h s x hs)

theorem occLabels_setRec (st : LeaderState) (sf : Bool) (ns : String)
    (a : AgentRec) : occLabels (setRec st sf ns a) = occLabels st := by
  unfold occLabels
  rw [setRec_occupied]

theorem nodup_append_singleton {l : List String} {a : String}
    (h : l.Nodup) (ha : a ∉ l) : (l ++ [a]).Nodup := by
  rw [List.nodup_append]
  exact ⟨h, List.nodup_singleton a, by
    intro x hx hmem
    rw [List.mem_singleton] at hmem
    exact ha (hmem ▸ hx)⟩

theorem occNodup_assignNextWaypoint (st : LeaderState) (ns : String)
    (h : (occLabels st).Nodup) :
    (occLabels (assignNextWaypoint st ns)).Nodup := by
  unfold assignNextWaypoint
  rcases anwResolve st ns with _ | ⟨sf, a⟩
  · exact h
  · dsimp only
    split
    · exact h
    · split
      · rw [occLabels_setRec]; exact h
      · rw [occLabels_setRec]
        show ((st.occupied ++ [OccEntry.mk ns (targetWp a).label]).map
          (·.label)).Nodup
        rw [List.map_append]
        exact nodup_append_singleton h (by assumption)

theorem occNodup_awsStep (st : LeaderState) (ns : String)
    (h : (occLabels st).Nodup) : (occLabels (awsStep st ns)).Nodup := by
  unfold awsStep
  rcases awsResolve st ns with _ | ⟨sf, a⟩
  · exact h
  · dsimp only
    split
    · split
      · exact h
      · split
        · exact h
        · rw [occLabels_setRec]
          show ((st.occupied ++ [OccEntry.mk ns (targetWp a).label]).map
            (·.label)).Nodup
          rw [List.map_append]
          exact nodup_append_singleton h (by assumption)
    · exact h

theorem occNodup_assignWaitingSlaves (st : LeaderState)
    (h : (occLabels st).Nodup) : (occLabels (assignWaitingSlaves st)).Nodup :=
  foldl_pres_prop (fun s => (occLabels s).Nodup) occNodup_awsStep _ st h

theorem occLabels_resetStep (st : LeaderState) (ns : String) :
    occLabels (resetStep st ns) = occLabels st := by
  unfold resetStep
  dsimp only
  split <;> split <;> rfl

theorem occNodup_applyAssign (st : LeaderState) (ns : String)
    (route : List Waypoint) (h : (occLabels st).Nodup) :
    (occLabels (applyAssign st ns route)).Nodup := by
  unfold applyAssign
  split
  · exact occNodup_assignNextWaypoint _ ns h
  · split
    · exact occNodup_assignNextWaypoint _ ns h
    · exact h

theorem occNodup_partitionAndAssign (P : PartitionFn) (D : DcppFn)
    (st : LeaderState) (h : (occLabels st).Nodup) :
    (occLabels (partitionAndAssign P D st)).Nodup := by
  unfold partitionAndAssign
  rcases st.graph with _ | g
  · exact h
  · dsimp only
    split
    · exact h
    · rcases partitionPlan P D st g with _ | asgs
      · exact h
      · dsimp only
        show (occLabels { asgs.foldl (fun s pr => applyAssign s pr.1 pr.2)
          ((sortedCandidates st).foldl resetStep st) with
            partitioningDone := true }).Nodup
        have h1 : (occLabels ((sortedCandidates st).foldl resetStep st)).Nodup := by
          rw [foldl_pres occLabels occLabels_resetStep]
          exact h
        have h2 := foldl_pres_prop (f := fun s (pr : String × List Waypoint) =>
            applyAssign s pr.1 pr.2) (fun s => (occLabels s).Nodup)
          (fun s pr => occNodup_applyAssign s pr.1 pr.2) asgs _ h1
        exact h2

theorem occNodup_removeOccLabelJ (st : LeaderState) (cw : JVal)
    (h : (occLabels st).Nodup) : (occLabels (removeOccLabelJ st cw)).Nodup := by
  rcases cw with s | n
  · rw [occLabels_removeOcc_str]
    exact h.filter _
  · exact h

theorem occLabels_setWaitingFalse (st : LeaderState) (ns : String) :
    occLabels (setWaitingFalse st ns) = occLabels st := by
  unfold setWaitingFalse
  split
  · rfl
  · split <;> rfl

theorem occNodup_navigationStatusCallback (P : PartitionFn) (D : DcppFn)
    (st : LeaderState) (now : Int) (p : Payload)
    (h : (occLabels st).Nodup) :
    (occLabels (navigationStatusCallback P D st now p)).Nodup := by
  unfold navigationStatusCallback
  rcases decodeStatus p with _ | m
  · exact h
  · dsimp only
    split
    · exact h
    · rcases m.robot_namespace with nsv | nv
      · dsimp only
        split
        · have h0 : (occLabels (updateLastSeen st nsv now)).Nodup := by
            rw [occLabels_updateLastSeen]; exact h
          split
          · exact occNodup_assignWaitingSlaves _
              (occNodup_assignNextWaypoint _ _ (by
                rw [occLabels_setWaitingFalse]
                exact occNodup_removeOccLabelJ _ _ h0))
          · split
            · split
              · exact occNodup_partitionAndAssign P D _ (by
                  show (occLabels (removeOccLabelJ
                    (updateLastSeen st nsv now) m.current_waypoint)).Nodup
                  exact occNodup_removeOccLabelJ _ _ h0)
              · exact occNodup_removeOccLabelJ _ _ h0
            · exact h0
        · exact h
      · exact h

theorem occNodup_simulateNavigationReached (st : LeaderState) (label : String)
    (h : (occLabels st).Nodup) :
    (occLabels (simulateNavigationReached st label)).Nodup := by
  unfold simulateNavigationReached
  split
  · apply occNodup_assignWaitingSlaves
    apply occNodup_assignNextWaypoint
    show ((st.occupied.filter (·.label ≠ label)).map (·.label)).Nodup
    exact (List.Sublist.map _ (List.filter_sublist _)).nodup h
  · exact h

/-- C2. Occupancy invariant: in every state reachable from an empty
occupancy set by the leader's assignment and status-handling operations,
each node label is reserved in `occupied_nodes` on behalf of at most one
agent — the (ghost-tagged) entry list never repeats a label. A label is
inserted only by an assignment that found it absent
(`assign_next_waypoint` / `assign_waiting_slaves`) and removed by the
arrival / failure handling of `navigation_status_callback`. -/
theorem C2_occupancy_at_most_one_holder (P : PartitionFn) (D : DcppFn)
    (st : LeaderState) (h : ReachableOcc P D st) : (occLabels st).Nodup := by
  induction h with
  | init st h0 =>
    show (st.occupied.map (·.label)).Nodup
    rw [h0]
    exact List.nodup_nil
  | step hr hop ih =>
    cases hop with
    | assign ns => exact occNodup_assignNextWaypoint _ ns ih
    | drainWaiting => exact occNodup_assignWaitingSlaves _ ih
    | repartition => exact occNodup_partitionAndAssign P D _ ih
    | status now p => exact occNodup_navigationStatusCallback P D _ now p ih
    | ownReached label => exact occNodup_simulateNavigationReached _ label ih

/-- C2 witness: after the reachable first self-assignment of the fresh
master `st2w`, the invariant holds and the set is exactly `{A}` held by
`m`. -/
theorem C2_witness :
    (occLabels (assignNextWaypoint st2w "m")).Nodup ∧
    (assignNextWaypoint st2w "m").occupied = [⟨"m", "A"⟩] :=
  ⟨C2_occupancy_at_most_one_holder trivPartition trivDcpp _
      (ReachableOcc.step (ReachableOcc.init st2w rfl)
        (LeaderOp.assign st2w "m")),
   by decide⟩

/-! ## Claim C7: arrival reports drain the waiting list

The proof works with `awsResolve` — the waiting-scan's own view of an
agent slot — and tracks how each operation of the `"reached"` handling
affects it. The key list lemmas characterize `find?` over a keyed update
of the slave list. -/

theorem find_map_set_self (l : List AgentRec) (ns : String) (a : AgentRec)
    (ha : a.ns = ns) :
    (l.map fun b => if b.ns = ns then a else b).find? (·.ns = ns) =
      (l.find? (·.ns = ns)).map (fun _ => a) := by
  induction l with
  | nil => rfl
  | cons b t ih =>
    by_cases hb : b.ns = ns
    · rw [List.map_cons, if_pos hb, List.find?_cons_of_pos _ (by simpa using ha),
        List.find?_cons_of_pos _ (by simpa using hb)]
      rfl
    · rw [List.map_cons, if_neg hb, List.find?_cons_of_neg _ (by simpa using hb),
        List.find?_cons_of_neg _ (by simpa using hb)]
      exact ih

theorem find_map_set_other (l : List AgentRec) (ns ns' : String)
    (a : AgentRec) (ha : a.ns = ns) (hne : ns' ≠ ns) :
    (l.map fun b => if b.ns = ns then a else b).find? (·.ns = ns') =
      l.find? (·.ns = ns') := by
  induction l with
  | nil => rfl
  | cons b t ih =>
    by_cases hb : b.ns = ns
    · have h1 : ¬(a.ns = ns') := by rw [ha]; exact fun h => hne h.symm
      have h2 : ¬(b.ns = ns') := by rw [hb]; exact fun h => hne h.symm
      rw [List.map_cons, if_pos hb, List.find?_cons_of_neg _ (by simpa using h1),
        List.find?_cons_of_neg _ (by simpa using h2)]
      exact ih
    · rw [List.map_cons, if_neg hb]
      by_cases hb' : b.ns = ns'
      · rw [List.find?_cons_of_pos _ (by simpa using hb'),
          List.find?_cons_of_pos _ (by simpa using hb')]
      · rw [List.find?_cons_of_neg _ (by simpa using hb'),
          List.find?_cons_of_neg _ (by simpa using hb')]
        exact ih

theorem find_map_upd_self (l : List AgentRec) (ns : String)
    (r : AgentRec → AgentRec) (hr : ∀ b, b.ns = ns → (r b).ns = ns) :
    (l.map fun b => if b.ns = ns then r b else b).find? (·.ns = ns) =
      (l.find? (·.ns = ns)).map r := by
  induction l with
  | nil => rfl
  | cons b t ih =>
    by_cases hb : b.ns = ns
    · rw [List.map_cons, if_pos hb,
        List.find?_cons_of_pos _ (by simpa using hr b hb),
        List.find?_cons_of_pos _ (by simpa using hb)]
      rfl
    · rw [List.map_cons, if_neg hb, List.find?_cons_of_neg _ (by simpa using hb),
        List.find?_cons_of_neg _ (by simpa using hb)]
      exact ih

theorem find_map_upd_other (l : List AgentRec) (ns ns' : String)
    (r : AgentRec → AgentRec) (hr : ∀ b, b.ns = ns → (r b).ns = ns)
    (hne : ns' ≠ ns) :
    (l.map fun b => if b.ns = ns then r b else b).find? (·.ns = ns') =
      l.find? (·.ns = ns') := by
  induction l with
  | nil => rfl
  | cons b t ih =>
    by_cases hb : b.ns = ns
    · have h1 : ¬((r b).ns = ns') := by
        rw [hr b hb]; exact fun h => hne h.symm
      have h2 : ¬(b.ns = ns') := by rw [hb]; exact fun h => hne h.symm
      rw [List.map_cons, if_pos hb, List.find?_cons_of_neg _ (by simpa using h1),
        List.find?_cons_of_neg _ (by simpa using h2)]
      exact ih
    · rw [List.map_cons, if_neg hb]
      by_cases hb' : b.ns = ns'
      · rw [List.find?_cons_of_pos _ (by simpa using hb'),
          List.find?_cons_of_pos _ (by simpa using hb')]
      · rw [List.find?_cons_of_neg _ (by simpa using hb'),
          List.find?_cons_of_neg _ (by simpa using hb')]
        exact ih

theorem awsResolve_true {st : LeaderState} {ns : String} {a : AgentRec}
    (h : awsResolve st ns = some (true, a)) :
    ns = st.selfNs ∧ st.isMaster = true ∧ a = st.selfRec := by
  unfold awsResolve at h
  by_cases hc : ns = st.selfNs ∧ st.isMaster = true
  · rw [if_pos hc] at h
    injection h with h1
    injection h1 with h2 h3
    exact ⟨hc.1, hc.2, h3.symm⟩
  · rw [if_neg hc] at h
    rcases hf : findSlave st ns with _ | b
    · rw [hf] at h; exact nomatch h
    · rw [hf, Option.map_some'] at h
      injection h with h1
      injection h1 with h2 h3
      exact nomatch h2

theorem awsResolve_false {st : LeaderState} {ns : String} {a : AgentRec}
    (h : awsResolve st ns = some (false, a)) :
    findSlave st ns = some a ∧ a.ns = ns ∧
      ¬(ns = st.selfNs ∧ st.isMaster = true) := by
  unfold awsResolve at h
  by_cases hc : ns = st.selfNs ∧ st.isMaster = true
  · rw [if_pos hc] at h
    injection h with h1
    injection h1 with h2 h3
    exact nomatch h2
  · rw [if_neg hc] at h
    rcases hf : findSlave st ns with _ | b
    · rw [hf] at h; exact nomatch h
    · rw [hf, Option.map_some'] at h
      injection h with h1
      injection h1 with h2 h3
      exact ⟨congrArg some h3, h3 ▸ findSlave_ns hf, hc⟩

theorem anwResolve_true {st : LeaderState} {ns : String} {a : AgentRec}
    (h : anwResolve st ns = some (true, a)) :
    ns = st.selfNs ∧ a = st.selfRec := by
  unfold anwResolve at h
  by_cases hc : ns = st.selfNs
  · rw [if_pos hc] at h
    injection h with h1
    injection h1 with h2 h3
    exact ⟨hc, h3.symm⟩
  · rw [if_neg hc] at h
    rcases hf : findSlave st ns with _ | b
    · rw [hf] at h; exact nomatch h
    · rw [hf, Option.map_some'] at h
      injection h with h1
      injection h1 with h2 h3
      exact nomatch h2

theorem anwResolve_false {st : LeaderState} {ns : String} {a : AgentRec}
    (h : anwResolve st ns = some (false, a)) :
    findSlave st ns = some a ∧ a.ns = ns ∧ ns ≠ st.selfNs := by
  unfold anwResolve at h
  by_cases hc : ns = st.selfNs
  · rw [if_pos hc] at h
    injection h with h1
    injection h1 with h2 h3
    exact nomatch h2
  · rw [if_neg hc] at h
    rcases hf : findSlave st ns with _ | b
    · rw [hf] at h; exact nomatch h
    · rw [hf, Option.map_some'] at h
      injection h with h1
      injection h1 with h2 h3
      exact ⟨congrArg some h3, h3 ▸ findSlave_ns hf, hc⟩

theorem awsResolve_congr (st st' : LeaderState) (ns' : String)
    (h1 : st'.selfNs = st.selfNs) (h2 : st'.isMaster = st.isMaster)
    (h3 : st'.selfRec = st.selfRec)
    (h4 : findSlave st' ns' = findSlave st ns') :
    awsResolve st' ns' = awsResolve st ns' := by
  unfold awsResolve
  rw [h1, h2, h3, h4]

theorem awsResolve_selfRec_irrel (st : LeaderState) (a : AgentRec)
    (ns' : String) (hns' : ns' ≠ st.selfNs) :
    awsResolve { st with selfRec := a } ns' = awsResolve st ns' := by
  unfold awsResolve
  rw [if_neg, if_neg]
  · rfl
  · exact fun hc => hns' hc.1
  · exact fun hc => hns' hc.1

theorem setRec_resolve_other_false (st : LeaderState) (ns ns' : String)
    (a : AgentRec) (ha : a.ns = ns) (hne : ns' ≠ ns) :
    awsResolve (setRec st false ns a) ns' = awsResolve st ns' := by
  unfold setRec
  rw [if_neg Bool.false_ne_true]
  refine awsResolve_congr _ _ _ ?_ ?_ ?_ ?_
  · rfl
  · rfl
  · rfl
  · show (st.slaves.map fun b => if b.ns = ns then a else b).find? (·.ns = ns') =
      st.slaves.find? (·.ns = ns')
    exact find_map_set_other _ ns ns' a ha hne

theorem setRec_resolve_other_true (st : LeaderState) (ns ns' : String)
    (a : AgentRec) (hns : ns = st.selfNs) (hne : ns' ≠ ns) :
    awsResolve (setRec st true ns a) ns' = awsResolve st ns' := by
  unfold setRec
  rw [if_pos rfl]
  exact awsResolve_selfRec_irrel st a ns' (hns ▸ hne)

theorem awsStep_resolve_other (st : LeaderState) (ns ns' : String)
    (hne : ns' ≠ ns) : awsResolve (awsStep st ns) ns' = awsResolve st ns' := by
  unfold awsStep
  rcases hr : awsResolve st ns with _ | ⟨sf, a⟩
  · rfl
  · dsimp only
    split
    · split
      · rfl
      · split
        · rfl
        · cases sf
          · obtain ⟨hfs, hans, hnc⟩ := awsResolve_false hr
            refine (setRec_resolve_other_false _ ns ns' _ ?_ hne).trans ?_
            · exact hans
            · rfl
          · obtain ⟨hsn, hm, ha⟩ := awsResolve_true hr
            refine (setRec_resolve_other_true _ ns ns' _ ?_ hne).trans ?_
            · exact hsn
            · rfl
    · rfl

theorem assignNext_resolve_other (st : LeaderState) (ns ns' : String)
    (hne : ns' ≠ ns) :
    awsResolve (assignNextWaypoint st ns) ns' = awsResolve st ns' := by
  unfold assignNextWaypoint
  rcases hr : anwResolve st ns with _ | ⟨sf, a⟩
  · rfl
  · dsimp only
    split
    · rfl
    · split
      · cases sf
        · obtain ⟨hfs, hans, hnsne⟩ := anwResolve_false hr
          exact setRec_resolve_other_false st ns ns' _ hans hne
        · obtain ⟨hsn, ha⟩ := anwResolve_true hr
          exact setRec_resolve_other_true st ns ns' _ hsn hne
      · cases sf
        · obtain ⟨hfs, hans, hnsne⟩ := anwResolve_false hr
          refine (setRec_resolve_other_false _ ns ns' _ ?_ hne).trans ?_
          · exact hans
          · rfl
        · obtain ⟨hsn, ha⟩ := anwResolve_true hr
          refine (setRec_resolve_other_true _ ns ns' _ ?_ hne).trans ?_
          · exact hsn
          · rfl

theorem updateLastSeen_resolve_other (st : LeaderState) (s ns' : String)
    (now : Int) (hne : ns' ≠ s) :
    awsResolve (updateLastSeen st s now) ns' = awsResolve st ns' := by
  unfold updateLastSeen
  split
  · refine awsResolve_congr _ _ _ ?_ ?_ ?_ ?_
    · rfl
    · rfl
    · rfl
    · show (st.slaves.map fun b =>
          if b.ns = s then { b with lastSeen := now } else b).find? (·.ns = ns') =
        st.slaves.find? (·.ns = ns')
      exact find_map_upd_other _ s ns' _ (fun b hb => hb) hne
  · split
    · rename_i hsn
      exact awsResolve_selfRec_irrel st _ ns' (hsn ▸ hne)
    · rfl

theorem setWaitingFalse_resolve_other (st : LeaderState) (s ns' : String)
    (hne : ns' ≠ s) :
    awsResolve (setWaitingFalse st s) ns' = awsResolve st ns' := by
  unfold setWaitingFalse
  split
  · refine awsResolve_congr _ _ _ ?_ ?_ ?_ ?_
    · rfl
    · rfl
    · rfl
    · show (st.slaves.map fun b =>
          if b.ns = s then { b with waiting := false } else b).find? (·.ns = ns') =
        st.slaves.find? (·.ns = ns')
      exact find_map_upd_other _ s ns' _ (fun b hb => hb) hne
  · split
    · rename_i hsn
      exact awsResolve_selfRec_irrel st _ ns' (hsn ▸ hne)
    · rfl

theorem removeOcc_resolve (st : LeaderState) (cw : JVal) (ns' : String) :
    awsResolve (removeOccLabelJ st cw) ns' = awsResolve st ns' := by
  unfold removeOccLabelJ
  split <;> rfl

theorem awsStep_sent_mono (st : LeaderState) (ns : String) :
    ∃ t, (awsStep st ns).sent = st.sent ++ t := by
  unfold awsStep
  rcases awsResolve st ns with _ | ⟨sf, a⟩
  · exact ⟨[], by simp⟩
  · dsimp only
    split
    · split
      · exact ⟨[], by simp⟩
      · split
        · exact ⟨[], by simp⟩
        · exact ⟨[(ns, (targetWp a).label)], by rw [setRec_sent]⟩
    · exact ⟨[], by simp⟩

theorem awsStep_occ_mono (st : LeaderState) (ns : String) :
    ∃ t, (awsStep st ns).occupied = st.occupied ++ t := by
  unfold awsStep
  rcases awsResolve st ns with _ | ⟨sf, a⟩
  · exact ⟨[], by simp⟩
  · dsimp only
    split
    · split
      · exact ⟨[], by simp⟩
      · split
        · exact ⟨[], by simp⟩
        · exact ⟨[OccEntry.mk ns (targetWp a).label], by rw [setRec_occupied]⟩
    · exact ⟨[], by simp⟩

theorem safeForB_congr (st st' : LeaderState) (ns X : String)
    (h : awsResolve st' ns = awsResolve st ns) :
    safeForB st' ns X = safeForB st ns X := by
  unfold safeForB
  rw [h]

theorem awsStep_occ_safe (st : LeaderState) (ns X : String)
    (hsafe : safeForB st ns X = true) (hX : X ∉ occLabels st) :
    X ∉ occLabels (awsStep st ns) := by
  unfold awsStep
  rcases hr : awsResolve st ns with _ | ⟨sf, a⟩
  · exact hX
  · dsimp only
    split
    · split
      · exact hX
      · split
        · exact hX
        · rename_i hwait hlen hfree
          have htar : targetLabel a ≠ X := by
            unfold safeForB at hsafe
            rw [hr] at hsafe
            simp only [hwait, Bool.not_true, Bool.false_or,
              decide_eq_true_eq, Bool.or_eq_true] at hsafe
            rcases hsafe with h | h
            · exact absurd h hlen
            · exact h
          rw [occLabels_setRec]
          show X ∉ (st.occupied ++ [OccEntry.mk ns (targetWp a).label]).map
            (·.label)
          rw [List.map_append]
          intro hmem
          rcases List.mem_append.mp hmem with h | h
          · exact hX h
          · rw [List.map_singleton, List.mem_singleton] at h
            exact htar h.symm
    · exact hX

theorem awsStep_resolve_self_action (st : LeaderState) (ns : String)
    (sf : Bool) (a : AgentRec) (hr : awsResolve st ns = some (sf, a))
    (hwait : a.waiting = true) (hlen : ¬a.route.length = 0)
    (hfree : (targetWp a).label ∉ occLabels st) :
    awsResolve (awsStep st ns) ns =
      some (sf,
        { a with waiting := false,
                 cursor := advanceCursor a.cursor a.route.length }) ∧
    (awsStep st ns).sent = st.sent ++ [(ns, (targetWp a).label)] ∧
    (awsStep st ns).occupied =
      st.occupied ++ [OccEntry.mk ns (targetWp a).label] := by
  unfold awsStep
  rw [hr]
  dsimp only
  rw [if_pos hwait, if_neg hlen, if_neg hfree]
  refine ⟨?_, by rw [setRec_sent], by rw [setRec_occupied]⟩
  cases sf
  · obtain ⟨hfs, hans, hnc⟩ := awsResolve_false hr
    unfold setRec
    rw [if_neg Bool.false_ne_true]
    unfold awsResolve
    rw [if_neg]
    · show ((st.slaves.map fun b =>
          if b.ns = ns then
            { a with waiting := false, cursor := advanceCursor a.cursor a.route.length }
          else b).find? (·.ns = ns)).map (false, ·) = _
      have hrec : ({ a with waiting := false, cursor := advanceCursor a.cursor a.route.length } : AgentRec).ns = ns :=
        hans
      have hfs' : st.slaves.find? (·.ns = ns) = some a := hfs
      rw [find_map_set_self _ ns _ hrec, hfs', Option.map_some', Option.map_some']
    · exact hnc
  · obtain ⟨hsn, hm, ha⟩ := awsResolve_true hr
    unfold setRec
    rw [if_pos rfl]
    unfold awsResolve
    rw [if_pos ⟨hsn, hm⟩]

theorem aws_fold_frame (wns : String) :
    ∀ (L : List String) (s : LeaderState), wns ∉ L →
      awsResolve (L.foldl awsStep s) wns = awsResolve s wns ∧
      (∃ t1, (L.foldl awsStep s).sent = s.sent ++ t1) ∧
      (∃ t2, (L.foldl awsStep s).occupied = s.occupied ++ t2) := by
  intro L
  induction L with
  | nil => exact fun s _ => ⟨rfl, ⟨[], by simp⟩, ⟨[], by simp⟩⟩
  | cons ns₀ t ih =>
    intro s hnot
    have h1 : wns ≠ ns₀ := fun h => hnot (h ▸ List.mem_cons_self ns₀ t)
    obtain ⟨ha, ⟨t1, ht1⟩, ⟨t2, ht2⟩⟩ :=
      ih (awsStep s ns₀) (fun h => hnot (List.mem_cons_of_mem _ h))
    rw [List.foldl_cons]
    refine ⟨ha.trans (awsStep_resolve_other s ns₀ wns h1), ?_, ?_⟩
    · obtain ⟨u, hu⟩ := awsStep_sent_mono s ns₀
      exact ⟨u ++ t1, by rw [ht1, hu, List.append_assoc]⟩
    · obtain ⟨u, hu⟩ := awsStep_occ_mono s ns₀
      exact ⟨u ++ t2, by rw [ht2, hu, List.append_assoc]⟩

theorem aws_fold_assigns_first (X wns : String) :
    ∀ (L : List String) (s : LeaderState) (sf : Bool) (w : AgentRec),
    awsResolve s wns = some (sf, w) →
    w.waiting = true → ¬w.route.length = 0 → (targetWp w).label = X →
    X ∉ occLabels s → wns ∈ L → L.Nodup →
    (∀ ns' ∈ L, ns' ≠ wns → safeForB s ns' X = true) →
    awsResolve (L.foldl awsStep s) wns =
      some (sf,
        { w with waiting := false,
                 cursor := advanceCursor w.cursor w.route.length }) ∧
    (wns, X) ∈ (L.foldl awsStep s).sent ∧
    OccEntry.mk wns X ∈ (L.foldl awsStep s).occupied := by
  intro L
  induction L with
  | nil =>
    intro s sf w _ _ _ _ _ hmem
    exact absurd hmem (List.not_mem_nil wns)
  | cons ns₀ t ih =>
    intro s sf w hr hwait hlen htar hX hmem hnd hsafe
    rw [List.foldl_cons]
    by_cases h0 : ns₀ = wns
    · subst h0
      obtain ⟨hres, hsent, hocc⟩ :=
        awsStep_resolve_self_action s ns₀ sf w hr hwait hlen (htar ▸ hX)
      have hnot : ns₀ ∉ t := (List.nodup_cons.mp hnd).1
      obtain ⟨hres2, ⟨t1, ht1⟩, ⟨t2, ht2⟩⟩ := aws_fold_frame ns₀ t (awsStep s ns₀) hnot
      refine ⟨?_, ?_, ?_⟩
      · rw [hres2, hres]
      · rw [ht1, hsent, htar]
        simp
      · rw [ht2, hocc, htar]
        simp
    · have hne0 : wns ≠ ns₀ := fun h => h0 h.symm
      have hmem' : wns ∈ t := by
        rcases List.mem_cons.mp hmem with h | h
        · exact absurd h.symm h0
        · exact h
      have hsafe0 : safeForB s ns₀ X = true :=
        hsafe ns₀ (List.mem_cons_self ns₀ t) h0
      refine ih (awsStep s ns₀) sf w ?_ hwait hlen htar ?_ hmem'
        (List.nodup_cons.mp hnd).2 ?_
      · rw [awsStep_resolve_other s ns₀ wns hne0]
        exact hr
      · exact awsStep_occ_safe s ns₀ X hsafe0 hX
      · intro ns' hns' hne'
        have hns'0 : ns' ≠ ns₀ := fun h =>
          (List.nodup_cons.mp hnd).1 (h ▸ hns')
        rw [safeForB_congr s _ ns' X (awsStep_resolve_other s ns₀ ns' hns'0)]
        exact hsafe ns' (List.mem_cons_of_mem _ hns') hne'

theorem selfNs_updateLastSeen (st : LeaderState) (ns : String) (now : Int) :
    (updateLastSeen st ns now).selfNs = st.selfNs := by
  unfold updateLastSeen
  split
  · rfl
  · split <;> rfl

theorem selfNs_setWaitingFalse (st : LeaderState) (ns : String) :
    (setWaitingFalse st ns).selfNs = st.selfNs := by
  unfold setWaitingFalse
  split
  · rfl
  · split <;> rfl

theorem selfNs_removeOccLabelJ (st : LeaderState) (cw : JVal) :
    (removeOccLabelJ st cw).selfNs = st.selfNs := by
  unfold removeOccLabelJ
  split <;> rfl

theorem findSlave_updateLastSeen_self (st : LeaderState) (s : String)
    (now : Int) (hmem : s ∈ slaveNames st) :
    findSlave (updateLastSeen st s now) s =
      (findSlave st s).map (fun b => { b with lastSeen := now }) := by
  unfold updateLastSeen
  rw [if_pos hmem]
  show (st.slaves.map fun b =>
      if b.ns = s then { b with lastSeen := now } else b).find? (·.ns = s) = _
  exact find_map_upd_self _ s _ (fun b hb => hb)

theorem findSlave_setWaitingFalse_self (st : LeaderState) (s : String)
    (hmem : s ∈ slaveNames st) :
    findSlave (setWaitingFalse st s) s =
      (findSlave st s).map (fun b => { b with waiting := false }) := by
  unfold setWaitingFalse
  rw [if_pos hmem]
  show (st.slaves.map fun b =>
      if b.ns = s then { b with waiting := false } else b).find? (·.ns = s) = _
  exact find_map_upd_self _ s _ (fun b hb => hb)

theorem findSlave_removeOcc (st : LeaderState) (cw : JVal) (ns : String) :
    findSlave (removeOccLabelJ st cw) ns = findSlave st ns := by
  unfold removeOccLabelJ
  split <;> rfl

theorem assignNext_occ_safe (st : LeaderState) (ns X : String)
    (hsafe : ∀ sf b, anwResolve st ns = some (sf, b) →
      b.route.length = 0 ∨ (targetWp b).label ≠ X)
    (hX : X ∉ occLabels st) : X ∉ occLabels (assignNextWaypoint st ns) := by
  unfold assignNextWaypoint
  rcases hr : anwResolve st ns with _ | ⟨sf, a⟩
  · exact hX
  · dsimp only
    split
    · exact hX
    · split
      · rw [occLabels_setRec]; exact hX
      · rename_i hlen hfree
        have htar : (targetWp a).label ≠ X := by
          rcases hsafe sf a hr with h | h
          · exact absurd h hlen
          · exact h
        rw [occLabels_setRec]
        show X ∉ (st.occupied ++ [OccEntry.mk ns (targetWp a).label]).map (·.label)
        rw [List.map_append]
        intro hmem
        rcases List.mem_append.mp hmem with h | h
        · exact hX h
        · rw [List.map_singleton, List.mem_singleton] at h
          exact htar h.symm

theorem anwResolve_slave_none {st : LeaderState} {ns : String}
    (hns : ns ≠ st.selfNs) (h : anwResolve st ns = none) :
    findSlave st ns = none := by
  unfold anwResolve at h
  rw [if_neg hns] at h
  exact Option.map_eq_none.mp h

theorem awsResolve_slave (st : LeaderState) (ns : String)
    (hns : ns ≠ st.selfNs) :
    awsResolve st ns = (findSlave st ns).map (false, ·) := by
  unfold awsResolve
  rw [if_neg (fun hc => hns hc.1)]

theorem safe_of_reporter (st2 : LeaderState) (s X : String)
    (hsns : s ≠ st2.selfNs)
    (hrep : ∀ b, findSlave st2 s = some b →
      b.waiting = false ∧ (b.route.length = 0 ∨ (targetWp b).label ≠ X)) :
    safeForB (assignNextWaypoint st2 s) s X = true := by
  unfold assignNextWaypoint
  rcases hr : anwResolve st2 s with _ | ⟨sf, b⟩
  · unfold safeForB
    rw [awsResolve_slave st2 s hsns, anwResolve_slave_none hsns hr]
    rfl
  · cases sf
    · obtain ⟨hfb, hbns, _⟩ := anwResolve_false hr
      obtain ⟨hbw, hbr⟩ := hrep b hfb
      dsimp only
      split
      · rename_i hlen
        unfold safeForB
        rw [awsResolve_slave st2 s hsns, hfb, Option.map_some']
        simp [hbw]
      · split
        · rename_i hlen hocc
          have hbx : (targetWp b).label ≠ X := by
            rcases hbr with h | h
            · exact absurd h hlen
            · exact h
          unfold safeForB
          have hsns' : s ≠ (setRec st2 false s { b with waiting := true }).selfNs := by
            rw [setRec_selfNs]; exact hsns
          rw [awsResolve_slave _ s hsns']
          have hrec : ({ b with waiting := true } : AgentRec).ns = s := hbns
          have hfind : findSlave (setRec st2 false s { b with waiting := true }) s =
              some { b with waiting := true } := by
            unfold setRec
            rw [if_neg Bool.false_ne_true]
            show (st2.slaves.map fun c =>
                if c.ns = s then { b with waiting := true } else c).find?
              (·.ns = s) = _
            rw [find_map_set_self _ s _ hrec]
            have hfb' : st2.slaves.find? (·.ns = s) = some b := hfb
            rw [hfb', Option.map_some']
          rw [hfind, Option.map_some']
          show (!true || decide (b.route.length = 0) ||
            decide ((targetWp { b with waiting := true }).label ≠ X)) = true
          have : (targetWp { b with waiting := true }).label = (targetWp b).label := rfl
          rw [this]
          simp [hbx]
        · rename_i hlen hocc
          unfold safeForB
          have hsns' : s ≠ (setRec
              { st2 with
                sent := st2.sent ++ [(s, (targetWp b).label)],
                occupied := st2.occupied ++ [OccEntry.mk s (targetWp b).label] }
              false s
              { b with cursor := advanceCursor b.cursor b.route.length }).selfNs := by
            rw [setRec_selfNs]; exact hsns
          rw [awsResolve_slave _ s hsns']
          have hrec : ({ b with cursor := advanceCursor b.cursor b.route.length } :
              AgentRec).ns = s := hbns
          have hfind : findSlave (setRec
              { st2 with
                sent := st2.sent ++ [(s, (targetWp b).label)],
                occupied := st2.occupied ++ [OccEntry.mk s (targetWp b).label] }
              false s
              { b with cursor := advanceCursor b.cursor b.route.length }) s =
              some { b with cursor := advanceCursor b.cursor b.route.length } := by
            unfold setRec
            rw [if_neg Bool.false_ne_true]
            show (st2.slaves.map fun c =>
                if c.ns = s then
                  { b with cursor := advanceCursor b.cursor b.route.length }
                else c).find? (·.ns = s) = _
            rw [find_map_set_self _ s _ hrec]
            have hfb' : st2.slaves.find? (·.ns = s) = some b := hfb
            rw [hfb', Option.map_some']
          rw [hfind, Option.map_some']
          show (!({ b with cursor := advanceCursor b.cursor b.route.length} :
            AgentRec).waiting || _ || _) = true
          have hw : ({ b with cursor := advanceCursor b.cursor b.route.length} :
              AgentRec).waiting = false := hbw
          rw [hw]
          rfl
    · obtain ⟨hsn, _⟩ := anwResolve_true hr
      exact absurd hsn hsns

/-- C7 evaluated at the failing input: in `st7` the peer `r3` is waiting
and its next target is `X`, which is in the OccupancySet, and `r2`
reports `X` reached (`p7`); the claim predicts that within the same
handling pass the leader frees `X`, re-attempts the waiting agents in
ascending order and `r3` becomes Assigned. Instead the handler, holding
the lock taken at line 305, blocks at `assign_next_waypoint`'s
re-acquisition of the same non-reentrant lock (line 419): the executed
prefix of the pass is the single outer acquisition and contains no
command publication, so no waiting agent is ever re-attempted and `r3`
never becomes Assigned. -/
theorem C7_reached_deadlock_no_drain_eval :
    (findSlave st7 "r3").map (·.waiting) = some true ∧
    (findSlave st7 "r3").map targetLabel = some "X" ∧
    "X" ∈ occLabels st7 ∧
    execUpToBlock (navStatusExecTrace trivPartition trivDcpp st7 11 p7) 0 =
      [ExecEv.acq] ∧
    (execUpToBlock (navStatusExecTrace trivPartition trivDcpp st7 11 p7) 0).any
      isSend = false := by
  refine ⟨by decide, by decide, by decide, by decide, by decide⟩

/-! ## Claim C6: partitioner seed order versus sorted assignment order -/

theorem routeOf_congr (st st' : LeaderState) (ns' : String)
    (h1 : st'.selfNs = st.selfNs) (h2 : st'.selfRec.route = st.selfRec.route)
    (h3 : (findSlave st' ns').map (·.route) = (findSlave st ns').map (·.route)) :
    routeOf st' ns' = routeOf st ns' := by
  unfold routeOf
  rw [h1, h2, h3]

theorem routeOf_setRec_pres (st : LeaderState) (oc : List OccEntry)
    (se : List (String × String)) (sf : Bool) (ns ns' : String)
    (a b : AgentRec) (hres : anwResolve st ns = some (sf, a))
    (hbn : b.ns = a.ns) (hbr : b.route = a.route) :
    routeOf (setRec { st with occupied := oc, sent := se } sf ns b) ns' =
      routeOf st ns' := by
  cases sf
  · obtain ⟨hfs, hans, _⟩ := anwResolve_false hres
    unfold setRec
    rw [if_neg Bool.false_ne_true]
    refine routeOf_congr _ _ _ ?_ ?_ ?_
    · rfl
    · rfl
    · by_cases hcase : ns' = ns
      · subst hcase
        show ((st.slaves.map fun c =>
            if c.ns = ns' then b else c).find? (·.ns = ns')).map (·.route) =
          (st.slaves.find? (·.ns = ns')).map (·.route)
        rw [find_map_set_self _ ns' _ (hbn.trans hans)]
        have hfs' : st.slaves.find? (·.ns = ns') = some a := hfs
        rw [hfs', Option.map_some', Option.map_some', Option.map_some', hbr]
      · show ((st.slaves.map fun c =>
            if c.ns = ns then b else c).find? (·.ns = ns')).map (·.route) =
          (st.slaves.find? (·.ns = ns')).map (·.route)
        rw [find_map_set_other _ ns ns' _ (hbn.trans hans) hcase]
  · obtain ⟨hsn, ha⟩ := anwResolve_true hres
    unfold setRec
    rw [if_pos rfl]
    refine routeOf_congr _ _ _ ?_ ?_ ?_
    · rfl
    · show b.route = st.selfRec.route
      rw [hbr, ha]
    · rfl

theorem routeOf_assignNext (st : LeaderState) (ns ns' : String) :
    routeOf (assignNextWaypoint st ns) ns' = routeOf st ns' := by
  unfold assignNextWaypoint
  rcases hr : anwResolve st ns with _ | ⟨sf, a⟩
  · rfl
  · dsimp only
    split
    · rfl
    · split
      · exact routeOf_setRec_pres st st.occupied st.sent sf ns ns' a _ hr rfl rfl
      · exact routeOf_setRec_pres st _ _ sf ns ns' a _ hr rfl rfl

theorem findSlave_isSome_of_mem {st : LeaderState} {ns : String}
    (h : ns ∈ slaveNames st) : ∃ b, findSlave st ns = some b := by
  unfold slaveNames at h
  obtain ⟨b, hb, hbn⟩ := List.mem_map.mp h
  rcases ho : st.slaves.find? (·.ns = ns) with _ | c
  · exfalso
    have := List.find?_eq_none.mp ho b hb
    simp [hbn] at this
  · exact ⟨c, ho⟩

theorem selfNs_applyAssign (st : LeaderState) (ns : String)
    (route : List Waypoint) : (applyAssign st ns route).selfNs = st.selfNs := by
  unfold applyAssign
  split
  · rw [assignNextWaypoint_selfNs]
  · split
    · rw [assignNextWaypoint_selfNs]
    · rfl

theorem selfNs_resetStep (st : LeaderState) (ns : String) :
    (resetStep st ns).selfNs = st.selfNs := by
  unfold resetStep
  dsimp only
  split <;> split <;> rfl

theorem routeOf_applyAssign_self (st : LeaderState) (ns : String)
    (r : List Waypoint) (hdom : ns = st.selfNs ∨ ns ∈ slaveNames st) :
    routeOf (applyAssign st ns r) ns = some r := by
  unfold applyAssign
  by_cases hself : ns = st.selfNs
  · rw [if_pos hself, routeOf_assignNext]
    unfold routeOf
    rw [if_pos hself]
  · rw [if_neg hself]
    have hmem : ns ∈ slaveNames st := hdom.resolve_left hself
    rw [if_pos hmem, routeOf_assignNext]
    unfold routeOf
    rw [if_neg hself]
    show ((st.slaves.map fun b =>
        if b.ns = ns then { b with route := r } else b).find?
      (·.ns = ns)).map (·.route) = some r
    rw [find_map_upd_self st.slaves ns (fun b => { b with route := r })
      (fun b hb => hb)]
    obtain ⟨b, hb⟩ := findSlave_isSome_of_mem hmem
    have hb' : st.slaves.find? (·.ns = ns) = some b := hb
    rw [hb', Option.map_some', Option.map_some']

theorem routeOf_selfRec_irrel (st : LeaderState) (a : AgentRec) (ns' : String)
    (hns' : ns' ≠ st.selfNs) :
    routeOf { st with selfRec := a } ns' = routeOf st ns' := by
  unfold routeOf
  rw [if_neg, if_neg]
  · rfl
  · exact hns'
  · exact hns'

theorem routeOf_applyAssign_other (st : LeaderState) (ns ns' : String)
    (r : List Waypoint) (hne : ns' ≠ ns) :
    routeOf (applyAssign st ns r) ns' = routeOf st ns' := by
  unfold applyAssign
  split
  · rename_i hself
    rw [routeOf_assignNext]
    exact routeOf_selfRec_irrel st _ ns' (fun h => hne (h.trans hself.symm))
  · split
    · rw [routeOf_assignNext]
      refine routeOf_congr _ _ _ ?_ ?_ ?_
      · rfl
      · rfl
      · show ((st.slaves.map fun b =>
            if b.ns = ns then { b with route := r } else b).find?
          (·.ns = ns')).map (·.route) =
          (st.slaves.find? (·.ns = ns')).map (·.route)
        rw [find_map_upd_other st.slaves ns ns' (fun b => { b with route := r })
          (fun b hb => hb) hne]
    · rfl

theorem applyAssign_fold_frame :
    ∀ (asgs : List (String × List Waypoint)) (s : LeaderState) (ns : String),
    ns ∉ asgs.map (·.1) →
    routeOf (asgs.foldl (fun t q => applyAssign t q.1 q.2) s) ns =
      routeOf s ns := by
  intro asgs
  induction asgs with
  | nil => intro s ns _; rfl
  | cons q rest ih =>
    intro s ns hnot
    rw [List.foldl_cons]
    have h1 : ns ≠ q.1 := fun h => hnot (by rw [List.map_cons]; exact h ▸ List.mem_cons_self _ _)
    rw [ih (applyAssign s q.1 q.2) ns
      (fun h => hnot (by rw [List.map_cons]; exact List.mem_cons_of_mem _ h))]
    exact routeOf_applyAssign_other s q.1 ns q.2 h1

theorem applyAssign_fold_routes :
    ∀ (asgs : List (String × List Waypoint)) (s : LeaderState),
    (asgs.map (·.1)).Nodup →
    (∀ pr ∈ asgs, pr.1 = s.selfNs ∨ pr.1 ∈ slaveNames s) →
    ∀ pr ∈ asgs,
      routeOf (asgs.foldl (fun t q => applyAssign t q.1 q.2) s) pr.1 =
        some pr.2 := by
  intro asgs
  induction asgs with
  | nil => intro s _ _ pr hpr; exact absurd hpr (List.not_mem_nil _)
  | cons q rest ih =>
    intro s hnd hdom pr hpr
    rw [List.map_cons, List.nodup_cons] at hnd
    rw [List.foldl_cons]
    rcases List.mem_cons.mp hpr with h | h
    · subst h
      rw [applyAssign_fold_frame rest _ pr.1 hnd.1]
      exact routeOf_applyAssign_self s pr.1 pr.2
        (hdom pr (List.mem_cons_self _ _))
    · refine ih (applyAssign s q.1 q.2) hnd.2 ?_ pr h
      intro pr' hpr'
      rcases hdom pr' (List.mem_cons_of_mem _ hpr') with hd | hd
      · left
        rw [selfNs_applyAssign]
        exact hd
      · right
        rw [slaveNames_applyAssign]
        exact hd

theorem sortedCandidates_nodup (st : LeaderState)
    (hkeys : (slaveNames st).Nodup) (hselfmem : st.selfNs ∉ slaveNames st) :
    (sortedCandidates st).Nodup := by
  apply ((pySorted_perm (electCandidates st)).nodup_iff).mpr
  unfold electCandidates
  rw [List.nodup_append]
  refine ⟨hkeys, List.nodup_singleton _, ?_⟩
  intro x hx hx'
  rw [List.mem_singleton] at hx'
  exact hselfmem (hx' ▸ hx)

/-- C6 counterexample: with the peer `b` (position `(5, 5)`) registered
before the leader `a` (position `(1, 1)`) takes over, the first sorted
namespace is `a`, whose position is `(1, 1)` — but the first start
position handed to the partitioner is `b`'s `(5, 5)`: the seed list is in
peer insertion order with the leader's position appended last, not in
namespace-correlated order. -/
theorem C6_claim_counterexample :
    sortedCandidates st6 = ["a", "b"] ∧
    namespacePos st6 "a" = some ⟨1, 1⟩ ∧
    namespacePos st6 "b" = some ⟨5, 5⟩ ∧
    simStartPositions st6 = [⟨5, 5⟩, ⟨1, 1⟩] := by decide

theorem traceFold_acc (l : List (String × List Waypoint)) (a : List ExecEv)
    (s : LeaderState) :
    (l.foldl (fun pr q => (pr.1 ++ applyAssignTrace pr.2 q.1 q.2,
        applyAssign pr.2 q.1 q.2)) (a, s)).1 =
    a ++ (l.foldl (fun pr q => (pr.1 ++ applyAssignTrace pr.2 q.1 q.2,
        applyAssign pr.2 q.1 q.2)) ([], s)).1 := by
  induction l generalizing a s with
  | nil => simp
  | cons q t ih =>
    rw [List.foldl_cons, List.foldl_cons]
    dsimp only
    rw [ih (a ++ applyAssignTrace s q.1 q.2) (applyAssign s q.1 q.2),
        ih ([] ++ applyAssignTrace s q.1 q.2) (applyAssign s q.1 q.2)]
    simp [List.append_assoc]

theorem applyAssignTrace_acq_head (s : LeaderState) (ns : String)
    (r : List Waypoint) (hdom : ns = s.selfNs ∨ ns ∈ slaveNames s) :
    ∃ t, applyAssignTrace s ns r = ExecEv.acq :: t := by
  unfold applyAssignTrace assignNextExecTrace
  by_cases h : ns = s.selfNs
  · rw [if_pos h]
    exact ⟨_, rfl⟩
  · rw [if_neg h, if_pos (hdom.resolve_left h)]
    exact ⟨_, rfl⟩

theorem partitionTraceFold_acq_head (q : String × List Waypoint)
    (l : List (String × List Waypoint)) (s : LeaderState)
    (hdom : q.1 = s.selfNs ∨ q.1 ∈ slaveNames s) :
    ∃ t, ((q :: l).foldl
      (fun pr r => (pr.1 ++ applyAssignTrace pr.2 r.1 r.2,
        applyAssign pr.2 r.1 r.2)) (([] : List ExecEv), s)).1 =
      ExecEv.acq :: t := by
  obtain ⟨t0, ht0⟩ := applyAssignTrace_acq_head s q.1 q.2 hdom
  rw [List.foldl_cons]
  dsimp only
  rw [traceFold_acc l ([] ++ applyAssignTrace s q.1 q.2)
    (applyAssign s q.1 q.2)]
  rw [List.nil_append, ht0]
  exact ⟨_, rfl⟩

theorem execUpToBlock_double_acq (t : List ExecEv) :
    execUpToBlock (ExecEv.acq :: ExecEv.acq :: t) 0 = [ExecEv.acq] := rfl

/-- C6 amended: the start-position list handed to `partition_graph` is
the known peer positions in dictionary insertion order followed by the
leader's own position (lines 353-364), not a list correlated with the
sorted namespace order (see the counterexample); the assignment loop of
a planned pass pairs the route computed from the `i`-th subgraph with
the `i`-th namespace in ascending sorted order (lines 378-399), but the
pass blocks at the nested acquisition of the already-held lock inside
its first `assign_next_waypoint` call (line 419, under the lock of line
346) before publishing any navigation command, so the per-index
assignment is never carried out in a run. -/
theorem C6_amended_seed_order_and_blocked_assignment (P : PartitionFn)
    (D : DcppFn) (st : LeaderState) (g : NavGraph) (sgs : List NavGraph)
    (hg : st.graph = some g) (hpos : ¬st.selfRec.pos = none)
    (hlen : (simStartPositions st).length = st.slaves.length + 1)
    (hP : P g (st.slaves.length + 1) (simStartPositions st) = .ok sgs)
    (hcount : sgs.length = (sortedCandidates st).length) :
    simStartPositions st =
      st.slaves.filterMap (·.pos) ++ st.selfRec.pos.toList ∧
    partitionPlan P D st g =
      .planned ((sortedCandidates st).zip
        (sgs.map fun sg => D (extractWaypoints sg) sg)) ∧
    execUpToBlock (partitionExecTrace P D st) 0 = [ExecEv.acq] ∧
    (execUpToBlock (partitionExecTrace P D st) 0).any isSend = false := by
  have hplan : partitionPlan P D st g =
      .planned ((sortedCandidates st).zip
        (sgs.map fun sg => D (extractWaypoints sg) sg)) := by
    unfold partitionPlan
    rw [if_neg hpos]
    dsimp only
    rw [if_neg (not_not_intro hlen), hP]
    dsimp only
    rw [if_neg (not_not_intro hcount)]
  obtain ⟨n0, nrest, hs⟩ : ∃ n0 nrest, sortedCandidates st = n0 :: nrest := by
    rcases hsc : sortedCandidates st with _ | ⟨n0, nrest⟩
    · exfalso
      have hl := (pySorted_perm (electCandidates st)).length_eq
      have hsc' : pySorted (electCandidates st) = [] := hsc
      rw [hsc'] at hl
      unfold electCandidates at hl
      rw [List.length_append] at hl
      simp only [List.length_nil, List.length_singleton] at hl
      omega
    · exact ⟨n0, nrest, rfl⟩
  obtain ⟨g0, grest, hsgs⟩ : ∃ g0 grest, sgs = g0 :: grest := by
    rcases sgs with _ | ⟨g0, grest⟩
    · exfalso
      rw [hs] at hcount
      simp only [List.length_nil, List.length_cons] at hcount
      omega
    · exact ⟨g0, grest, rfl⟩
  have hself1 : ((sortedCandidates st).foldl resetStep st).selfNs =
      st.selfNs :=
    foldl_pres (·.selfNs) selfNs_resetStep _ st
  have hslaves1 : slaveNames ((sortedCandidates st).foldl resetStep st) =
      slaveNames st :=
    foldl_pres slaveNames slaveNames_resetStep _ st
  have hn0mem : n0 ∈ electCandidates st := by
    have hmem : n0 ∈ sortedCandidates st := by
      rw [hs]
      exact List.mem_cons_self _ _
    exact ((pySorted_perm _).mem_iff).mp hmem
  have hdom1 : n0 = ((sortedCandidates st).foldl resetStep st).selfNs ∨
      n0 ∈ slaveNames ((sortedCandidates st).foldl resetStep st) := by
    unfold electCandidates at hn0mem
    rcases List.mem_append.mp hn0mem with h | h
    · right
      rw [hslaves1]
      exact h
    · left
      rw [hself1]
      exact List.mem_singleton.mp h
  have htr : partitionExecTrace P D st =
      [ExecEv.acq] ++
      (((sortedCandidates st).zip
          (sgs.map fun sg => D (extractWaypoints sg) sg)).foldl
        (fun pr q => (pr.1 ++ applyAssignTrace pr.2 q.1 q.2,
          applyAssign pr.2 q.1 q.2))
        (([] : List ExecEv), (sortedCandidates st).foldl resetStep st)).1 ++
      [ExecEv.rel] := by
    unfold partitionExecTrace
    rw [hg]
    dsimp only
    rw [if_neg (Nat.succ_ne_zero _), hplan]
  have hzipc : (sortedCandidates st).zip
      (sgs.map fun sg => D (extractWaypoints sg) sg) =
      (n0, D (extractWaypoints g0) g0) ::
        nrest.zip (grest.map fun sg => D (extractWaypoints sg) sg) := by
    rw [hs, hsgs, List.map_cons, List.zip_cons_cons]
  obtain ⟨t, ht⟩ := partitionTraceFold_acq_head
    (n0, D (extractWaypoints g0) g0)
    (nrest.zip (grest.map fun sg => D (extractWaypoints sg) sg))
    ((sortedCandidates st).foldl resetStep st) hdom1
  rw [hzipc, ht] at htr
  have hpre : execUpToBlock (partitionExecTrace P D st) 0 = [ExecEv.acq] := by
    rw [htr]
    show execUpToBlock (ExecEv.acq :: ExecEv.acq :: (t ++ [ExecEv.rel])) 0 =
      [ExecEv.acq]
    exact execUpToBlock_double_acq _
  refine ⟨rfl, hplan, hpre, ?_⟩
  rw [hpre]
  rfl

/-- C6 amended witness: on the concrete state `st6w` every hypothesis of
the amended theorem holds with the two-subgraph partitioner `part6`: the
plan pairs the first sorted namespace `a` with the route of the first
subgraph, and the executed prefix of the partition pass is the single
outer lock acquisition — no navigation command is ever published. -/
theorem C6_amended_blocked_witness :
    st6w.graph = some g6 ∧
    partitionPlan part6 trivDcpp st6w g6 =
      .planned ((sortedCandidates st6w).zip
        (sgs6.map fun sg => trivDcpp (extractWaypoints sg) sg)) ∧
    execUpToBlock (partitionExecTrace part6 trivDcpp st6w) 0 = [ExecEv.acq] := by
  have h := C6_amended_seed_order_and_blocked_assignment part6 trivDcpp st6w
    g6 sgs6 rfl (by decide) (by decide) rfl (by decide)
  exact ⟨rfl, h.2.1, h.2.2.1⟩

end Fleet
